import Mathlib

/-!
# twilight-actions: the extraction-and-generation pipeline of `main.go`

A shallow embedding of `src/main.go`.

* Go strings are Lean strings; `fmt.Sprintf` and the functions of package
  `strings` that the program calls are modelled on their character lists.
* A Go `map[string]V` is an association list with pairwise distinct keys
  (`GoMap`).  A `range` over a map visits its entries in an unspecified order:
  `generateTS` visits the entries in the order of the list, and
  `Twilight.Reordered` says in which orders a run can see a given map.
* The parts of `go/ast` that `main` inspects are the types of namespace `ast`.
* A run-time panic (failed type assertion, index out of range, nil
  dereference) is the error of an `Except Panic` result.
-/

namespace fmt

/-- The verbs of a format string, replaced from left to right.  Only the verb
`%s` occurs in the formats of `main.go`, and every call passes as many
arguments as its format has verbs; each argument is a string and is copied
without being scanned again.  A `%s` with no argument left prints
`%!s(MISSING)`, as in Go. -/
def sprintfAux : List Char → List String → List Char
  | '%' :: 's' :: rest, a :: args => a.data ++ sprintfAux rest args
  | '%' :: 's' :: rest, [] => "%!s(MISSING)".data ++ sprintfAux rest []
  | c :: rest, args => c :: sprintfAux rest args
  | [], _ => []

/-- Go `fmt.Sprintf(format, args...)` for string arguments. -/
def Sprintf (format : String) (args : List String) : String :=
  ⟨sprintfAux format.data args⟩

end fmt

namespace strings

/-- Whether `sub` is a prefix of `s`. -/
def hasPrefix : List Char → List Char → Bool
  | _, [] => true
  | [], _ :: _ => false
  | c :: s, d :: sub => c == d && hasPrefix s sub

/-- Leftmost search of `sub` in `s`. -/
def containsAux : List Char → List Char → Bool
  | [], sub => hasPrefix [] sub
  | c :: s, sub => hasPrefix (c :: s) sub || containsAux s sub

/-- Go `strings.Contains(s, substr)`: whether `substr` occurs within `s`.  The
search is on the characters; for the substring `@action`, which is ASCII, it
finds the same occurrences as the search on the UTF-8 bytes. -/
def Contains (s substr : String) : Bool :=
  containsAux s.data substr.data

/-- Go `strings.Join(elems, sep)`. -/
def Join : List String → String → String
  | [], _ => ""
  | [a], _ => a
  | a :: b :: rest, sep => a ++ sep ++ Join (b :: rest) sep

/-- Go `strings.ToLower(s)`: every rune is replaced by its lower case.  The
Unicode case table is not part of the repository and is the parameter
`lower`. -/
def ToLower (lower : Char → Char) (s : String) : String :=
  ⟨s.data.map lower⟩

end strings

namespace ast

/-- Go `ast.Comment`. -/
structure Comment where
  Text : String

/-- Go `ast.CommentGroup`. -/
structure CommentGroup where
  List : List Comment

mutual
/-- The type expressions of `go/ast` that the program meets: an identifier, or
one of the forms that are not identifiers. -/
inductive Expr where
  | Ident (Name : String)
  | StarExpr (X : Expr)
  | ArrayType (Elt : Expr)
  | MapType (Key Value : Expr)
  | SelectorExpr (X : Expr) (Sel : String)
  | StructType (Fields : FieldList)
/-- Go `ast.Field`: the names declared together and their type. -/
inductive Field where
  | mk (Names : List String) (Type_ : Expr)
/-- Go `ast.FieldList`. -/
inductive FieldList where
  | mk (List : List Field)
end

/-- The names of a field. -/
def Field.Names : Field → List String
  | .mk names _ => names

/-- The type of a field. -/
def Field.Type_ : Field → Expr
  | .mk _ type => type

/-- The entries of a field list. -/
def FieldList.List : FieldList → List Field
  | .mk l => l

/-- Go `ast.FuncType`; `Results` is a nil pointer when the function declares
no result. -/
structure FuncType where
  Params : FieldList
  Results : Option FieldList

/-- Go `ast.TypeSpec`. -/
structure TypeSpec where
  Name : String
  Type_ : Expr

/-- Go `ast.FuncDecl`.  Of the body only the type declarations matter to the
inspection: `Body` lists the type specs inside the body in the order in which
`ast.Inspect` reaches them. -/
structure FuncDecl where
  Doc : Option CommentGroup
  Name : String
  Type_ : FuncType
  Body : List TypeSpec

/-- A top-level declaration: a function declaration, or a `GenDecl` with the
type specs that the inspection reaches at it and below it, in the order of the
visit: the specs of a type declaration, and the type specs inside a function
literal of the initialiser of a variable.  The other specs match no case of the
inspection. -/
inductive Decl where
  | GenDecl (Specs : List TypeSpec)
  | FuncDecl (x : FuncDecl)

/-- Go `ast.File`. -/
structure File where
  Decls : List Decl

end ast

/-- A Go `map[string]V`: its entries, with pairwise distinct keys.  The order
of the list is the order in which a `range` loop over this value visits the
entries; Go leaves that order unspecified, so a run may see any reordering of
the list (`Twilight.Reordered`). -/
structure GoMap (V : Type) where
  entries : List (String × V)
  deriving DecidableEq, Repr

namespace GoMap

/-- Go `make(map[string]V)`. -/
def empty {V : Type} : GoMap V := ⟨[]⟩

/-- Assignment to a key of an entry list: the value of an existing key is
replaced, a new key gets a new entry. -/
def setEntries {V : Type} (k : String) (v : V) : List (String × V) → List (String × V)
  | [] => [(k, v)]
  | e :: rest => if e.1 = k then (k, v) :: rest else e :: setEntries k v rest

/-- Go `m[k] = v`. -/
def set {V : Type} (m : GoMap V) (k : String) (v : V) : GoMap V :=
  ⟨setEntries k v m.entries⟩

/-- The keys of the map. -/
def keys {V : Type} (m : GoMap V) : List String :=
  m.entries.map Prod.fst

end GoMap

namespace Twilight

/-- The composite literal of `BasicTypeMap`, in source order. -/
def BasicTypeMap : List (String × String) :=
  [ ("string", "string"),
    ("int", "number"),
    ("int32", "number"),
    ("int64", "number"),
    ("float32", "number"),
    ("float64", "number"),
    ("bool", "boolean"),
    ("error", "Error") ]

/-- Go `MapType`: the table entry when there is one, else the argument. -/
def MapType (goType : String) : String :=
  match BasicTypeMap.lookup goType with
  | some tsType => tsType
  | none => goType

/-- Go `type Action struct`. -/
structure Action where
  Name : String
  Req : String
  Res : String
  deriving DecidableEq, Repr


/-- Go `type StructDef struct`. -/
structure StructDef where
  Name : String
  Fields : GoMap String
  deriving DecidableEq, Repr

/-- The run-time panics of the extraction. -/
inductive Panic where
  | typeAssertion
  | indexOutOfRange
  | nilDereference
  deriving DecidableEq, Repr

/-- The two variables of `main` that the inspection updates. -/
structure Schema where
  actions : List Action
  structs : GoMap StructDef
  deriving DecidableEq, Repr

/-- Go `hasActionTag`: the loop over `doc.List` with its early return. -/
def hasActionTagList : List ast.Comment → Bool
  | [] => false
  | c :: rest => if strings.Contains c.Text "@action" then true else hasActionTagList rest

/-- Go `hasActionTag`. -/
def hasActionTag (doc : ast.CommentGroup) : Bool :=
  hasActionTagList doc.List

/-- The body of the loop over `st.Fields.List`: the unchecked assertion
`field.Type.(*ast.Ident)`, then `field.Names[0]`, then the assignment
`def.Fields[fieldName] = MapType(fieldType)`. -/
def fieldStep (d : StructDef) (field : ast.Field) : Except Panic StructDef :=
  match field.Type_ with
  | .Ident fieldType =>
    match field.Names with
    | fieldName :: _ => .ok { d with Fields := d.Fields.set fieldName (MapType fieldType) }
    | [] => .error .indexOutOfRange
  | _ => .error .typeAssertion

/-- The case `*ast.TypeSpec` of the inspection. -/
def visitTypeSpec (x : ast.TypeSpec) (s : Schema) : Except Panic Schema :=
  match x.Type_ with
  | .StructType st =>
    match st.List.foldlM fieldStep { Name := x.Name, Fields := GoMap.empty } with
    | .ok d => .ok { s with structs := s.structs.set x.Name d }
    | .error e => .error e
  | _ => .ok s

/-- The case `*ast.FuncDecl` of the inspection: `Params.List[0]`, its
assertion, `Results.List[0]`, its assertion, then the append. -/
def visitFuncDecl (x : ast.FuncDecl) (s : Schema) : Except Panic Schema :=
  match x.Doc with
  | none => .ok s
  | some doc =>
    if hasActionTag doc then
      match x.Type_.Params.List with
      | [] => .error .indexOutOfRange
      | p :: _ =>
        match p.Type_ with
        | .Ident req =>
          match x.Type_.Results with
          | none => .error .nilDereference
          | some results =>
            match results.List with
            | [] => .error .indexOutOfRange
            | r :: _ =>
              match r.Type_ with
              | .Ident res =>
                .ok { s with actions := s.actions ++ [{ Name := x.Name, Req := req, Res := res }] }
              | _ => .error .typeAssertion
        | _ => .error .typeAssertion
    else .ok s

/-- The inspection of the type specs of a list, in order. -/
def visitTypeSpecs (specs : List ast.TypeSpec) (s : Schema) : Except Panic Schema :=
  specs.foldlM (fun s x => visitTypeSpec x s) s

/-- The inspection of one top-level declaration and of what is below it. -/
def visitDecl (s : Schema) : ast.Decl → Except Panic Schema
  | .GenDecl specs => visitTypeSpecs specs s
  | .FuncDecl x =>
    match visitFuncDecl x s with
    | .ok s1 => visitTypeSpecs x.Body s1
    | .error e => .error e

/-- Go `ast.Inspect(file, ...)` with the closure of `main`. -/
def inspectFile (s : Schema) (file : ast.File) : Except Panic Schema :=
  file.Decls.foldlM visitDecl s

/-- The extraction loops of `main`; `files` are the files of the parsed
packages in the order in which the two `range` loops reach them. -/
def extract (files : List ast.File) : Except Panic Schema :=
  files.foldlM inspectFile { actions := [], structs := GoMap.empty }

/-- The format of one `case` arm in `generateGoRouter`. -/
def caseFormat : String :=
  "\n\tcase \"%s\":\n\t\tvar req actions.%s\n\t\tjson.Unmarshal(body.Args, &req)\n\t\tres, err := actions.%s(req)\n\t\treturn res, err"

/-- The arm that the loop of `generateGoRouter` appends for the action `a`. -/
def goCase (a : Action) : String :=
  fmt.Sprintf caseFormat [a.Name, a.Req, a.Name]

/-- The template `tpl` of `generateGoRouter`. -/
def tpl : String :=
  "package main\nimport (\n\t\"encoding/json\"\n\t\"net/http\"\n\t\"yourproject/internal/actions\"\n)\n\ntype RPCRequest struct \x7b\n\tFn   string          " ++ "`json:\"fn\"`" ++ "\n\tArgs json.RawMessage " ++ "`json:\"args\"`" ++ "\n\x7d\n\nfunc ActionHandler(w http.ResponseWriter, r *http.Request) \x7b\n\tvar body RPCRequest\n\tjson.NewDecoder(r.Body).Decode(&body)\n\n\tvar result interface\x7b\x7d\n\tvar err error\n\n\tswitch body.Fn \x7b%s\n\t\x7d\n\n\tif err != nil \x7b\n\t\thttp.Error(w, err.Error(), 500)\n\t\treturn\n\t\x7d\n\tjson.NewEncoder(w).Encode(result)\n\x7d"

/-- Go `generateGoRouter`: the text written to `internal/generated/router.go`. -/
def generateGoRouter (actions : List Action) : String :=
  let cases := actions.map goCase
  fmt.Sprintf tpl [strings.Join cases ""]

/-- The format of one client binding in `generateTS`. -/
def bindingFormat : String :=
  "export const %s = async (args: %s): Promise<%s> => \x7b\n  const res = await fetch(\"/api/actions\", \x7b\n    method: \"POST\",\n    headers: \x7b \"Content-Type\": \"application/json\" \x7d,\n    body: JSON.stringify(\x7b fn: \"%s\", args \x7d),\n  \x7d);\n  if (!res.ok) throw new Error(await res.text());\n  return res.json();\n\x7d;\n\n"

/-- The binding that the second loop of `generateTS` writes for `a`. -/
def tsBinding (a : Action) : String :=
  fmt.Sprintf bindingFormat [a.Name, a.Req, a.Res, a.Name]

/-- The line that the inner loop of `generateTS` writes for one entry of
`s.Fields`. -/
def tsField (lower : Char → Char) (e : String × String) : String :=
  fmt.Sprintf "  %s: %s;\n" [strings.ToLower lower e.1, e.2]

/-- The body of the first loop of `generateTS`: the three writes to the
builder `sb` for the struct `s`. -/
def writeStruct (lower : Char → Char) (sb : String) (s : StructDef) : String :=
  let sb := sb ++ fmt.Sprintf "export interface %s \x7b\n" [s.Name]
  let sb := s.Fields.entries.foldl (fun sb e => sb ++ tsField lower e) sb
  sb ++ "\x7d\n\n"

/-- Go `generateTS`: the text written to `src/actions.ts`, when the `range`
loops visit `structs` and each `s.Fields` in the order of their entries. -/
def generateTS (lower : Char → Char) (actions : List Action) (structs : GoMap StructDef) :
    String :=
  let sb := structs.entries.foldl (fun sb e => writeStruct lower sb e.2) ""
  actions.foldl (fun sb a => sb ++ tsBinding a) sb

/-- Two entries of a struct map that differ at most in the order of the
fields: the same key, the same `Name`, the same field entries up to order. -/
def SameStruct (e e1 : String × StructDef) : Prop :=
  e1.1 = e.1 ∧ e1.2.Name = e.2.Name ∧ e1.2.Fields.entries.Perm e.2.Fields.entries

/-- The orders in which a run can see the struct map `m`: `m1` has the entries
of `m` in some order, each struct with its fields in some order. -/
def Reordered (m m1 : GoMap StructDef) : Prop :=
  ∃ mid : List (String × StructDef), mid.Perm m.entries ∧
    List.Forall₂ SameStruct mid m1.entries

/-- The struct maps that extraction builds: the keys are pairwise distinct and
every struct is stored under its own name. -/
def WellKeyed (m : GoMap StructDef) : Prop :=
  m.keys.Nodup ∧ ∀ e ∈ m.entries, e.2.Name = e.1

/-- The declaration of `GetUser` in `internal/actions/test.go`; the text of a
comment includes its `//`. -/
def getUserDecl : ast.FuncDecl :=
  { Doc := some { List := [{ Text := "// @action" }] },
    Name := "GetUser",
    Type_ :=
      { Params := .mk [.mk ["req"] (.Ident "GetUserRequest")],
        Results := some (.mk [.mk [] (.Ident "GetUserResponse"),
                              .mk [] (.Ident "error")]) },
    Body := [] }

/-- The type spec of `GetUserRequest` in `internal/actions/test.go`. -/
def getUserRequestSpec : ast.TypeSpec :=
  { Name := "GetUserRequest", Type_ := .StructType (.mk [.mk ["ID"] (.Ident "int")]) }

/-- The type spec of `GetUserResponse` in `internal/actions/test.go`. -/
def getUserResponseSpec : ast.TypeSpec :=
  { Name := "GetUserResponse",
    Type_ := .StructType (.mk [.mk ["Name"] (.Ident "string"),
                               .mk ["Email"] (.Ident "string")]) }

/-- The file `internal/actions/test.go` as `parser.ParseDir` gives it: the
declaration of the imports, the two type declarations and the function. -/
def testFile : ast.File :=
  { Decls := [.GenDecl [], .GenDecl [getUserRequestSpec], .GenDecl [getUserResponseSpec],
              .FuncDecl getUserDecl] }

/-- The action of `GetUser`. -/
def getUser : Action :=
  { Name := "GetUser", Req := "GetUserRequest", Res := "GetUserResponse" }

/-- The condition `x.Doc != nil && hasActionTag(x.Doc)` of the inspection. -/
def isAnnotated (x : ast.FuncDecl) : Bool :=
  match x.Doc with
  | none => false
  | some doc => hasActionTag doc

/-- The function declarations among top-level declarations, in order. -/
def declFuncs : List ast.Decl → List ast.FuncDecl
  | [] => []
  | .FuncDecl x :: rest => x :: declFuncs rest
  | .GenDecl _ :: rest => declFuncs rest

/-- The function declarations of the files, in the order of the inspection. -/
def funcDecls : List ast.File → List ast.FuncDecl
  | [] => []
  | file :: rest => declFuncs file.Decls ++ funcDecls rest

/-- The type specs that the inspection visits below top-level declarations,
in the order of the visit. -/
def declSpecs : List ast.Decl → List ast.TypeSpec
  | [] => []
  | .GenDecl specs :: rest => specs ++ declSpecs rest
  | .FuncDecl x :: rest => x.Body ++ declSpecs rest

/-- The type specs of the files, in the order of the inspection. -/
def typeSpecs : List ast.File → List ast.TypeSpec
  | [] => []
  | file :: rest => declSpecs file.Decls ++ typeSpecs rest

/-- The action that the `FuncDecl` case builds from `x`: the name of `x`, the
identifier that is the type of `Params.List[0]` and the identifier that is the
type of `Results.List[0]`. -/
def Records (x : ast.FuncDecl) (a : Action) : Prop :=
  a.Name = x.Name ∧
  (∃ (p : ast.Field) (ps : List ast.Field),
    x.Type_.Params.List = p :: ps ∧ p.Type_ = .Ident a.Req) ∧
  (∃ (results : ast.FieldList) (r : ast.Field) (rs : List ast.Field),
    x.Type_.Results = some results ∧ results.List = r :: rs ∧ r.Type_ = .Ident a.Res)

/-- A declaration with two parameters:
`func Transfer(from Account, to Account) (Receipt, error)`, marked `@action`. -/
def transferDecl : ast.FuncDecl :=
  { Doc := some { List := [{ Text := "// @action" }] },
    Name := "Transfer",
    Type_ :=
      { Params := .mk [.mk ["from"] (.Ident "Account"), .mk ["to"] (.Ident "Account")],
        Results := some (.mk [.mk [] (.Ident "Receipt"), .mk [] (.Ident "error")]) },
    Body := [] }

/-- A second declaration named `GetUser`, marked `@action`:
`func GetUser(req AdminRequest) (AdminResponse, error)`. -/
def getUserAgainDecl : ast.FuncDecl :=
  { Doc := some { List := [{ Text := "// @action" }] },
    Name := "GetUser",
    Type_ :=
      { Params := .mk [.mk ["req"] (.Ident "AdminRequest")],
        Results := some (.mk [.mk [] (.Ident "AdminResponse"), .mk [] (.Ident "error")]) },
    Body := [] }

/-- The action of the second declaration named `GetUser`. -/
def getUserAgain : Action :=
  { Name := "GetUser", Req := "AdminRequest", Res := "AdminResponse" }

/-- The action of `Transfer`. -/
def transfer : Action :=
  { Name := "Transfer", Req := "Account", Res := "Receipt" }

/-- The struct map that extraction builds from `internal/actions/test.go`. -/
def testStructs : GoMap StructDef :=
  ⟨[("GetUserRequest", { Name := "GetUserRequest", Fields := ⟨[("ID", "number")]⟩ }),
    ("GetUserResponse", { Name := "GetUserResponse",
                          Fields := ⟨[("Name", "string"), ("Email", "string")]⟩ })]⟩

/-- The struct map of `testStructs` seen in another order: `GetUserResponse`
first, its field `Email` first. -/
def testStructsOtherOrder : GoMap StructDef :=
  ⟨[("GetUserResponse", { Name := "GetUserResponse",
                          Fields := ⟨[("Email", "string"), ("Name", "string")]⟩ }),
    ("GetUserRequest", { Name := "GetUserRequest", Fields := ⟨[("ID", "number")]⟩ })]⟩

/-- The type spec of `type Pair struct { A, B int }`: one field that declares
two names. -/
def pairSpec : ast.TypeSpec :=
  { Name := "Pair", Type_ := .StructType (.mk [.mk ["A", "B"] (.Ident "int")]) }

/-- The struct map that extraction builds from `GetUserResponse` alone. -/
def responseStructs : GoMap StructDef :=
  ⟨[("GetUserResponse", { Name := "GetUserResponse",
                          Fields := ⟨[("Name", "string"), ("Email", "string")]⟩ })]⟩

/-- The struct map that extraction builds from `pairSpec` alone. -/
def pairStructs : GoMap StructDef :=
  ⟨[("Pair", { Name := "Pair", Fields := ⟨[("A", "number")]⟩ })]⟩

/-- The file with the two declarations named `GetUser`. -/
def twoGetUsers : ast.File :=
  { Decls := [.FuncDecl getUserDecl, .FuncDecl getUserAgainDecl] }

/-- The struct definition that extraction builds from `GetUserRequest`: the
field `ID` with the stored type `number`. -/
def getUserRequestDef : StructDef :=
  { Name := "GetUserRequest", Fields := ⟨[("ID", "number")]⟩ }

/-- A marked declaration with a scalar result:
`func Count(req CountRequest) (int, error)`. -/
def countDecl : ast.FuncDecl :=
  { Doc := some { List := [{ Text := "// @action" }] },
    Name := "Count",
    Type_ :=
      { Params := .mk [.mk ["req"] (.Ident "CountRequest")],
        Results := some (.mk [.mk [] (.Ident "int"), .mk [] (.Ident "error")]) },
    Body := [] }

/-- The action of `Count`. -/
def count : Action :=
  { Name := "Count", Req := "CountRequest", Res := "int" }

/-- A marked declaration whose types are declared nowhere:
`func Lookup(req MissingRequest) (MissingResponse, error)`. -/
def lookupDecl : ast.FuncDecl :=
  { Doc := some { List := [{ Text := "// @action" }] },
    Name := "Lookup",
    Type_ :=
      { Params := .mk [.mk ["req"] (.Ident "MissingRequest")],
        Results := some (.mk [.mk [] (.Ident "MissingResponse"), .mk [] (.Ident "error")]) },
    Body := [] }

/-- The action of `Lookup`. -/
def lookup : Action :=
  { Name := "Lookup", Req := "MissingRequest", Res := "MissingResponse" }

/-- The type spec of `type Order struct { Item Product }`, where `Product` is
declared nowhere. -/
def orderSpec : ast.TypeSpec :=
  { Name := "Order", Type_ := .StructType (.mk [.mk ["Item"] (.Ident "Product")]) }

/-- A source with the struct `Order` and the function `Lookup`: none of
`Product`, `MissingRequest`, `MissingResponse` is declared. -/
def unresolvedFile : ast.File :=
  { Decls := [.GenDecl [orderSpec], .FuncDecl lookupDecl] }

/-- The struct map that extraction builds from `unresolvedFile`. -/
def orderStructs : GoMap StructDef :=
  ⟨[("Order", { Name := "Order", Fields := ⟨[("Item", "Product")]⟩ })]⟩

/-- The test of the assertion `.(*ast.Ident)`: whether a type expression is
an identifier. -/
def isIdent : ast.Expr → Bool
  | .Ident _ => true
  | _ => false

/-- A field on which the loop over `st.Fields.List` does not panic: its type
is an identifier and it declares at least one name. -/
def supportedField (field : ast.Field) : Bool :=
  isIdent field.Type_ && !field.Names.isEmpty

/-- A type spec on which the `TypeSpec` case does not panic: when its type is
a struct type, every field of it is supported. -/
def supportedSpec (x : ast.TypeSpec) : Bool :=
  match x.Type_ with
  | .StructType st => st.List.all supportedField
  | _ => true

/-- Whether a field list has a first entry and the type of that entry is an
identifier: the accesses `List[0].Type.(*ast.Ident)`. -/
def firstIsIdent : List ast.Field → Bool
  | [] => false
  | field :: _ => isIdent field.Type_

/-- A function declaration on which the `FuncDecl` case does not panic: when
it passes the marker test, its parameters and its results have a first entry
whose type is an identifier. -/
def supportedFunc (x : ast.FuncDecl) : Bool :=
  !isAnnotated x ||
    (firstIsIdent x.Type_.Params.List &&
      match x.Type_.Results with
      | none => false
      | some results => firstIsIdent results.List)

/-- The supported shape of a source: every type spec and every function
declaration that the inspection visits is supported. -/
def supported (files : List ast.File) : Bool :=
  (typeSpecs files).all supportedSpec && (funcDecls files).all supportedFunc

/-- The stored field types of a struct map are all values of `MapType`. -/
def MappedFields (m : GoMap StructDef) : Prop :=
  ∀ e ∈ m.entries, ∀ f ∈ e.2.Fields.entries, ∃ t : String, f.2 = MapType t

/-! ## Text lemmas -/

theorem hasPrefix_iff (s sub : List Char) :
    strings.hasPrefix s sub = true ↔ ∃ post, s = sub ++ post := by
  induction s generalizing sub with
  | nil =>
    cases sub with
    | nil => simp [strings.hasPrefix]
    | cons d sub => simp [strings.hasPrefix]
  | cons c s ih =>
    cases sub with
    | nil => simp [strings.hasPrefix]
    | cons d sub =>
      simp only [strings.hasPrefix, Bool.and_eq_true, beq_iff_eq, ih, List.cons_append,
        List.cons.injEq]
      constructor
      · rintro ⟨rfl, post, rfl⟩
        exact ⟨post, rfl, rfl⟩
      · rintro ⟨post, rfl, rfl⟩
        exact ⟨rfl, post, rfl⟩

theorem containsAux_iff (s sub : List Char) :
    strings.containsAux s sub = true ↔ ∃ pre post, s = pre ++ sub ++ post := by
  induction s with
  | nil =>
    simp only [strings.containsAux, hasPrefix_iff]
    constructor
    · rintro ⟨post, h⟩
      exact ⟨[], post, by simpa using h⟩
    · rintro ⟨pre, post, h⟩
      have h1 : pre ++ sub ++ post = [] := h.symm
      simp only [List.append_eq_nil] at h1
      exact ⟨[], by simp [h1.1.2]⟩
  | cons c s ih =>
    simp only [strings.containsAux, Bool.or_eq_true, hasPrefix_iff, ih]
    constructor
    · rintro (⟨post, h⟩ | ⟨pre, post, h⟩)
      · exact ⟨[], post, by simpa using h⟩
      · exact ⟨c :: pre, post, by simp [h]⟩
    · rintro ⟨pre, post, h⟩
      cases pre with
      | nil => exact Or.inl ⟨post, by simpa using h⟩
      | cons d pre =>
        simp only [List.cons_append, List.cons.injEq] at h
        exact Or.inr ⟨pre, post, by simpa using h.2⟩

theorem Contains_iff (s sub : String) :
    strings.Contains s sub = true ↔ ∃ pre post : String, s = pre ++ sub ++ post := by
  unfold strings.Contains
  rw [containsAux_iff]
  constructor
  · rintro ⟨pre, post, h⟩
    exact ⟨⟨pre⟩, ⟨post⟩, String.ext (by simpa using h)⟩
  · rintro ⟨pre, post, h⟩
    exact ⟨pre.data, post.data, by simp [h]⟩

theorem mapType_of_not_key (s : String)
    (h : s ∉ ["int", "int32", "int64", "float32", "float64", "bool", "string", "error"]) :
    MapType s = s := by
  simp only [List.mem_cons, List.mem_singleton, List.not_mem_nil, or_false, not_or] at h
  obtain ⟨h1, h2, h3, h4, h5, h6, h7, h8⟩ := h
  have e1 := beq_eq_false_iff_ne.mpr h1
  have e2 := beq_eq_false_iff_ne.mpr h2
  have e3 := beq_eq_false_iff_ne.mpr h3
  have e4 := beq_eq_false_iff_ne.mpr h4
  have e5 := beq_eq_false_iff_ne.mpr h5
  have e6 := beq_eq_false_iff_ne.mpr h6
  have e7 := beq_eq_false_iff_ne.mpr h7
  have e8 := beq_eq_false_iff_ne.mpr h8
  simp [MapType, BasicTypeMap, List.lookup, e1, e2, e3, e4, e5, e6, e7, e8]

theorem join_cons (a : String) (l : List String) :
    strings.Join (a :: l) "" = a ++ strings.Join l "" := by
  cases l with
  | nil => simp [strings.Join]
  | cons b l => simp [strings.Join]

theorem join_append (l1 l2 : List String) :
    strings.Join (l1 ++ l2) "" = strings.Join l1 "" ++ strings.Join l2 "" := by
  induction l1 with
  | nil => simp [strings.Join]
  | cons a l ih => rw [List.cons_append, join_cons, join_cons, ih, String.append_assoc]

theorem foldl_write {α : Type} (f : α → String) (l : List α) (sb : String) :
    l.foldl (fun sb a => sb ++ f a) sb = sb ++ strings.Join (l.map f) "" := by
  induction l generalizing sb with
  | nil => simp [strings.Join]
  | cons a l ih => rw [List.foldl_cons, ih, List.map_cons, join_cons, String.append_assoc]

theorem goCase_eq (a : Action) :
    goCase a =
      "\n\tcase \"" ++ (a.Name ++ ("\":\n\t\tvar req actions." ++ (a.Req ++
        ("\n\t\tjson.Unmarshal(body.Args, &req)\n\t\tres, err := actions." ++ (a.Name ++
          "(req)\n\t\treturn res, err"))))) := rfl

set_option maxRecDepth 100000 in
theorem tsBinding_eq (a : Action) :
    tsBinding a =
      "export const " ++ (a.Name ++ (" = async (args: " ++ (a.Req ++ ("): Promise<" ++ (a.Res ++
        ("> => \x7b\n  const res = await fetch(\"/api/actions\", \x7b\n    method: \"POST\",\n    headers: \x7b \"Content-Type\": \"application/json\" \x7d,\n    body: JSON.stringify(\x7b fn: \"" ++
          (a.Name ++ "\", args \x7d),\n  \x7d);\n  if (!res.ok) throw new Error(await res.text());\n  return res.json();\n\x7d;\n\n"))))))) := rfl

set_option maxRecDepth 100000 in
theorem sprintf_tpl (cases : String) :
    fmt.Sprintf tpl [cases] =
      "package main\nimport (\n\t\"encoding/json\"\n\t\"net/http\"\n\t\"yourproject/internal/actions\"\n)\n\ntype RPCRequest struct \x7b\n\tFn   string          `json:\"fn\"`\n\tArgs json.RawMessage `json:\"args\"`\n\x7d\n\nfunc ActionHandler(w http.ResponseWriter, r *http.Request) \x7b\n\tvar body RPCRequest\n\tjson.NewDecoder(r.Body).Decode(&body)\n\n\tvar result interface\x7b\x7d\n\tvar err error\n\n\tswitch body.Fn \x7b" ++
        (cases ++ "\n\t\x7d\n\n\tif err != nil \x7b\n\t\thttp.Error(w, err.Error(), 500)\n\t\treturn\n\t\x7d\n\tjson.NewEncoder(w).Encode(result)\n\x7d") := rfl

theorem sprintf_tpl_split :
    ∃ head tail : String, ∀ cases : String, fmt.Sprintf tpl [cases] = head ++ (cases ++ tail) :=
  ⟨_, _, sprintf_tpl⟩

theorem tsField_eq (lower : Char → Char) (e : String × String) :
    tsField lower e = "  " ++ (strings.ToLower lower e.1 ++ (": " ++ (e.2 ++ ";\n"))) := rfl

theorem sprintf_interface (name : String) :
    fmt.Sprintf "export interface %s \x7b\n" [name] =
      "export interface " ++ (name ++ " \x7b\n") := rfl

/-- The interface block of one struct: what `writeStruct` adds to the builder. -/
theorem writeStruct_eq (lower : Char → Char) (sb : String) (d : StructDef) :
    writeStruct lower sb d =
      sb ++ ("export interface " ++ (d.Name ++ (" \x7b\n" ++
        (strings.Join (d.Fields.entries.map (tsField lower)) "" ++ "\x7d\n\n")))) := by
  unfold writeStruct
  simp only [foldl_write, sprintf_interface, String.append_assoc]

/-- The client text is the interface blocks followed by the bindings. -/
theorem generateTS_eq (lower : Char → Char) (actions : List Action) (structs : GoMap StructDef) :
    generateTS lower actions structs =
      strings.Join (structs.entries.map (fun e => writeStruct lower "" e.2)) "" ++
        strings.Join (actions.map tsBinding) "" := by
  unfold generateTS
  simp only [foldl_write]
  congr 1
  have key : ∀ (l : List (String × StructDef)) (sb : String),
      l.foldl (fun sb e => writeStruct lower sb e.2) sb =
        sb ++ strings.Join (l.map (fun e => writeStruct lower "" e.2)) "" := by
    intro l
    induction l with
    | nil => intro sb; simp [strings.Join]
    | cons e l ih =>
      intro sb
      rw [List.foldl_cons, ih, List.map_cons, join_cons, ← String.append_assoc]
      congr 1
      simp only [writeStruct_eq, String.empty_append]
  simpa using key structs.entries ""

/-- The router text is the template around the arms. -/
theorem generateGoRouter_eq (actions : List Action) :
    generateGoRouter actions = fmt.Sprintf tpl [strings.Join (actions.map goCase) ""] := rfl

theorem join_map_mem {α : Type} (f : α → String) (l : List α) (a : α) (h : a ∈ l) :
    ∃ pre post : String, strings.Join (l.map f) "" = pre ++ (f a ++ post) := by
  obtain ⟨l1, l2, rfl⟩ := List.append_of_mem h
  refine ⟨strings.Join (l1.map f) "", strings.Join (l2.map f) "", ?_⟩
  rw [List.map_append, join_append, List.map_cons, join_cons]

/-! ## The type mapper -/

/-- C1: `MapType` gives `number` for `int`, `int32`, `int64`, `float32` and
`float64`, `boolean` for `bool`, `string` for `string`, `Error` for `error`,
and gives every other string back unchanged; being a total function, it has a
result for every input. -/
theorem MapType_table :
    MapType "int" = "number" ∧ MapType "int32" = "number" ∧ MapType "int64" = "number" ∧
    MapType "float32" = "number" ∧ MapType "float64" = "number" ∧
    MapType "bool" = "boolean" ∧ MapType "string" = "string" ∧ MapType "error" = "Error" ∧
    (∀ s : String,
      s ∉ ["int", "int32", "int64", "float32", "float64", "bool", "string", "error"] →
        MapType s = s) ∧
    ∀ s : String, ∃ t : String, MapType s = t :=
  ⟨by decide, by decide, by decide, by decide, by decide, by decide, by decide, by decide,
    mapType_of_not_key, fun s => ⟨MapType s, rfl⟩⟩

/-- C1 at a struct name: `GetUserRequest` is no key of the table and is
returned unchanged. -/
theorem MapType_table_witness :
    "GetUserRequest" ∉ ["int", "int32", "int64", "float32", "float64", "bool", "string",
      "error"] ∧ MapType "GetUserRequest" = "GetUserRequest" :=
  ⟨by decide, MapType_table.2.2.2.2.2.2.2.2.1 "GetUserRequest" (by decide)⟩

/-! ## The marker -/

theorem hasActionTagList_iff (l : List ast.Comment) :
    hasActionTagList l = true ↔ ∃ c ∈ l, strings.Contains c.Text "@action" = true := by
  induction l with
  | nil => simp [hasActionTagList]
  | cons c rest ih =>
    by_cases hc : strings.Contains c.Text "@action" = true
    · simp [hasActionTagList, hc]
    · simp [hasActionTagList, hc, ih]

/-- C4: `hasActionTag doc` is true exactly when some comment of the group has
a text with the substring `@action`, and it is false for a group with no
comment. -/
theorem hasActionTag_iff (doc : ast.CommentGroup) :
    (hasActionTag doc = true ↔
      ∃ c ∈ doc.List, ∃ pre post : String, c.Text = pre ++ "@action" ++ post) ∧
    hasActionTag { List := [] } = false := by
  refine ⟨?_, rfl⟩
  unfold hasActionTag
  rw [hasActionTagList_iff]
  constructor
  · rintro ⟨c, hc, h⟩
    exact ⟨c, hc, (Contains_iff _ _).mp h⟩
  · rintro ⟨c, hc, h⟩
    exact ⟨c, hc, (Contains_iff _ _).mpr h⟩

/-! ## Actions -/

/-- C3: visiting a function declaration whose documentation has the marker
and whose first parameter and first result are identifiers appends exactly one
`Action`, made of the name of the function, the name of the type of the first
parameter and the name of the type of the first result, whatever follows the
first result; a declaration without documentation, or whose documentation has
no marker, leaves the actions as they are. -/
theorem visitFuncDecl_action (x : ast.FuncDecl) (s : Schema) :
    (∀ (doc : ast.CommentGroup) (p r : ast.Field) (ps rs : List ast.Field)
        (results : ast.FieldList) (req res : String),
        x.Doc = some doc → hasActionTag doc = true →
        x.Type_.Params.List = p :: ps → p.Type_ = .Ident req →
        x.Type_.Results = some results → results.List = r :: rs → r.Type_ = .Ident res →
        visitFuncDecl x s =
          .ok { s with actions := s.actions ++ [{ Name := x.Name, Req := req, Res := res }] }) ∧
    (x.Doc = none → visitFuncDecl x s = .ok s) ∧
    (∀ doc : ast.CommentGroup, x.Doc = some doc → hasActionTag doc = false →
        visitFuncDecl x s = .ok s) := by
  refine ⟨?_, ?_, ?_⟩
  · intro doc p r ps rs results req res hdoc htag hp hpt hres hr hrt
    simp [visitFuncDecl, hdoc, htag, hp, hpt, hres, hr, hrt]
  · intro hdoc
    simp [visitFuncDecl, hdoc]
  · intro doc hdoc htag
    simp [visitFuncDecl, hdoc, htag]

/-- C3 at `GetUser(req GetUserRequest) (GetUserResponse, error)`: the visit
appends `Action{GetUser, GetUserRequest, GetUserResponse}`. -/
theorem visitFuncDecl_action_witness :
    visitFuncDecl getUserDecl { actions := [], structs := GoMap.empty } =
      .ok { actions := [{ Name := "GetUser", Req := "GetUserRequest",
                          Res := "GetUserResponse" }],
            structs := GoMap.empty } :=
  (visitFuncDecl_action getUserDecl { actions := [], structs := GoMap.empty }).1
    { List := [{ Text := "// @action" }] }
    (.mk ["req"] (.Ident "GetUserRequest")) (.mk [] (.Ident "GetUserResponse"))
    [] [.mk [] (.Ident "error")]
    (.mk [.mk [] (.Ident "GetUserResponse"), .mk [] (.Ident "error")])
    "GetUserRequest" "GetUserResponse" rfl (by decide) rfl rfl rfl rfl rfl

/-! ## The two artifacts of one action -/

/-- C2, as the code has it: for an action `a` of the list, the client text
holds the binding of `a` and the router text holds the arm of `a`; the `fn`
literal of the binding and the case label of the arm are both `a.Name`; the
type of `args` is `a.Req` and the arm decodes into `actions.<a.Req>`; the
binding returns `Promise<a.Res>`, and the arm does not depend on `a.Res`. -/
theorem binding_and_arm (lower : Char → Char) (actions : List Action)
    (structs : GoMap StructDef) (a : Action) (h : a ∈ actions) :
    (∃ pre post : String, generateTS lower actions structs = pre ++ (tsBinding a ++ post)) ∧
    (∃ pre post : String, generateGoRouter actions = pre ++ (goCase a ++ post)) ∧
    tsBinding a =
      "export const " ++ (a.Name ++ (" = async (args: " ++ (a.Req ++ ("): Promise<" ++ (a.Res ++
        ("> => \x7b\n  const res = await fetch(\"/api/actions\", \x7b\n    method: \"POST\",\n    headers: \x7b \"Content-Type\": \"application/json\" \x7d,\n    body: JSON.stringify(\x7b fn: \"" ++
          (a.Name ++ "\", args \x7d),\n  \x7d);\n  if (!res.ok) throw new Error(await res.text());\n  return res.json();\n\x7d;\n\n"))))))) ∧
    goCase a =
      "\n\tcase \"" ++ (a.Name ++ ("\":\n\t\tvar req actions." ++ (a.Req ++
        ("\n\t\tjson.Unmarshal(body.Args, &req)\n\t\tres, err := actions." ++ (a.Name ++
          "(req)\n\t\treturn res, err"))))) ∧
    ∀ res : String, goCase { a with Res := res } = goCase a := by
  refine ⟨?_, ?_, tsBinding_eq a, goCase_eq a, fun _ => rfl⟩
  · obtain ⟨pre, post, e⟩ := join_map_mem tsBinding actions a h
    refine ⟨strings.Join (structs.entries.map (fun e => writeStruct lower "" e.2)) "" ++ pre,
      post, ?_⟩
    rw [generateTS_eq, e, String.append_assoc]
  · obtain ⟨pre, post, e⟩ := join_map_mem goCase actions a h
    obtain ⟨head, tail, ht⟩ := sprintf_tpl_split
    rw [generateGoRouter_eq, ht, e]
    exact ⟨head ++ pre, post ++ tail, by simp only [String.append_assoc]⟩

/-- C2 at the list `[getUser]`. -/
theorem binding_and_arm_witness :
    getUser ∈ [getUser] ∧
    (∃ pre post : String,
      generateTS Char.toLower [getUser] GoMap.empty = pre ++ (tsBinding getUser ++ post)) ∧
    (∃ pre post : String, generateGoRouter [getUser] = pre ++ (goCase getUser ++ post)) :=
  ⟨by decide,
    (binding_and_arm Char.toLower [getUser] GoMap.empty getUser (by decide)).1,
    (binding_and_arm Char.toLower [getUser] GoMap.empty getUser (by decide)).2.1⟩

set_option maxRecDepth 100000 in
/-- C2 fails as stated at the list `[getUser]`: the binding names the response
type `GetUserResponse`, the router text does not contain it, and the arm is the
same text for another response type while the binding is not. -/
theorem arm_omits_response :
    strings.Contains (tsBinding getUser) "GetUserResponse" = true ∧
    strings.Contains (generateGoRouter [getUser]) "GetUserResponse" = false ∧
    goCase { getUser with Res := "int" } = goCase getUser ∧
    tsBinding { getUser with Res := "int" } ≠ tsBinding getUser := by
  refine ⟨by decide, by decide, rfl, by decide⟩

/-! ## The switch on an unknown function name -/

set_option maxRecDepth 100000 in
/-- C7, as the code has it: the switch that `generateGoRouter` renders has no
`default` arm, and nothing in the rendered text signals an unknown function.
The body of the switch is exactly the arms of the actions, in the order of the
list; the arm of an action is a `case` arm whose label is the name of the
action; after the switch the text only tests `err` and encodes `result`; and
neither the template nor the format of an arm contains `default` or
`unknown`. -/
theorem switch_without_default (actions : List Action) :
    generateGoRouter actions =
      "package main\nimport (\n\t\"encoding/json\"\n\t\"net/http\"\n\t\"yourproject/internal/actions\"\n)\n\ntype RPCRequest struct \x7b\n\tFn   string          `json:\"fn\"`\n\tArgs json.RawMessage `json:\"args\"`\n\x7d\n\nfunc ActionHandler(w http.ResponseWriter, r *http.Request) \x7b\n\tvar body RPCRequest\n\tjson.NewDecoder(r.Body).Decode(&body)\n\n\tvar result interface\x7b\x7d\n\tvar err error\n" ++
        ("\n\tswitch body.Fn \x7b" ++ (strings.Join (actions.map goCase) "" ++
          "\n\t\x7d\n\n\tif err != nil \x7b\n\t\thttp.Error(w, err.Error(), 500)\n\t\treturn\n\t\x7d\n\tjson.NewEncoder(w).Encode(result)\n\x7d")) ∧
    (∀ a : Action, goCase a =
      "\n\tcase \"" ++ (a.Name ++ ("\":\n\t\tvar req actions." ++ (a.Req ++
        ("\n\t\tjson.Unmarshal(body.Args, &req)\n\t\tres, err := actions." ++ (a.Name ++
          "(req)\n\t\treturn res, err")))))) ∧
    (actions.map goCase).length = actions.length ∧
    strings.Contains caseFormat "default" = false ∧
    strings.Contains tpl "default" = false ∧
    strings.Contains caseFormat "unknown" = false ∧
    strings.Contains tpl "unknown" = false := by
  refine ⟨?_, goCase_eq, by simp, by decide, by decide, by decide, by decide⟩
  rw [generateGoRouter_eq, sprintf_tpl, ← String.append_assoc]
  rfl

set_option maxRecDepth 100000 in
/-- C7 fails as stated at the list `[getUser]` and the function name
`DeleteUser`: the rendered text has the one arm of `GetUser`, no arm for
`DeleteUser`, no `default` arm and no mention of an unknown function; and for
the empty list the rendered switch has no arm at all. -/
theorem unknown_route_not_signalled :
    strings.Contains (generateGoRouter [getUser]) "case \"GetUser\":" = true ∧
    strings.Contains (generateGoRouter [getUser]) "case \"DeleteUser\":" = false ∧
    strings.Contains (generateGoRouter [getUser]) "default" = false ∧
    strings.Contains (generateGoRouter [getUser]) "unknown" = false ∧
    generateGoRouter [] =
      "package main\nimport (\n\t\"encoding/json\"\n\t\"net/http\"\n\t\"yourproject/internal/actions\"\n)\n\ntype RPCRequest struct \x7b\n\tFn   string          `json:\"fn\"`\n\tArgs json.RawMessage `json:\"args\"`\n\x7d\n\nfunc ActionHandler(w http.ResponseWriter, r *http.Request) \x7b\n\tvar body RPCRequest\n\tjson.NewDecoder(r.Body).Decode(&body)\n\n\tvar result interface\x7b\x7d\n\tvar err error\n\n\tswitch body.Fn \x7b\n\t\x7d\n\n\tif err != nil \x7b\n\t\thttp.Error(w, err.Error(), 500)\n\t\treturn\n\t\x7d\n\tjson.NewEncoder(w).Encode(result)\n\x7d" := by
  refine ⟨by decide, by decide, by decide, by decide, by decide⟩

/-! ## The list of actions of an extraction -/

theorem foldlM_cons_ok {σ α ε : Type} (f : σ → α → Except ε σ) (a : α) (l : List α)
    (s s1 : σ) :
    (a :: l).foldlM f s = .ok s1 ↔ ∃ s0, f s a = .ok s0 ∧ l.foldlM f s0 = .ok s1 := by
  rw [List.foldlM_cons]
  cases h : f s a with
  | error e => simp [bind, Except.bind]
  | ok s0 => simp [bind, Except.bind]

theorem foldlM_nil_ok {σ α ε : Type} (f : σ → α → Except ε σ) (s s1 : σ) :
    ([] : List α).foldlM f s = .ok s1 ↔ s = s1 := by
  simp [List.foldlM_nil, pure, Except.pure]

theorem visitTypeSpec_actions (x : ast.TypeSpec) (s s1 : Schema)
    (h : visitTypeSpec x s = .ok s1) : s1.actions = s.actions := by
  unfold visitTypeSpec at h
  split at h
  · split at h
    · cases h; rfl
    · cases h
  · cases h; rfl

theorem visitTypeSpecs_actions (specs : List ast.TypeSpec) (s s1 : Schema)
    (h : visitTypeSpecs specs s = .ok s1) : s1.actions = s.actions := by
  unfold visitTypeSpecs at h
  induction specs generalizing s with
  | nil => rw [foldlM_nil_ok] at h; rw [h]
  | cons x rest ih =>
    rw [foldlM_cons_ok] at h
    obtain ⟨s0, h0, hrest⟩ := h
    rw [ih s0 hrest, visitTypeSpec_actions x s s0 h0]

theorem visitFuncDecl_ok (x : ast.FuncDecl) (s s1 : Schema)
    (h : visitFuncDecl x s = .ok s1) :
    s1.structs = s.structs ∧
    (isAnnotated x = true → ∃ a, Records x a ∧ s1.actions = s.actions ++ [a]) ∧
    (isAnnotated x = false → s1.actions = s.actions) := by
  cases hdoc : x.Doc with
  | none =>
    simp only [visitFuncDecl, hdoc, Except.ok.injEq] at h
    subst h
    simp [isAnnotated, hdoc]
  | some doc =>
    by_cases htag : hasActionTag doc = true
    · cases hp : x.Type_.Params.List with
      | nil => simp [visitFuncDecl, hdoc, htag, hp] at h
      | cons p ps =>
        cases hpt : p.Type_ with
        | Ident req =>
          cases hres : x.Type_.Results with
          | none => simp [visitFuncDecl, hdoc, htag, hp, hpt, hres] at h
          | some results =>
            cases hr : results.List with
            | nil => simp [visitFuncDecl, hdoc, htag, hp, hpt, hres, hr] at h
            | cons r rs =>
              cases hrt : r.Type_ with
              | Ident res =>
                simp only [visitFuncDecl, hdoc, htag, hp, hpt, hres, hr, hrt, if_true,
                  Except.ok.injEq] at h
                subst h
                refine ⟨rfl, fun _ => ⟨{ Name := x.Name, Req := req, Res := res }, ?_, rfl⟩, ?_⟩
                · exact ⟨rfl, ⟨p, ps, hp, hpt⟩, ⟨results, r, rs, hres, hr, hrt⟩⟩
                · simp [isAnnotated, hdoc, htag]
              | StarExpr _ => simp [visitFuncDecl, hdoc, htag, hp, hpt, hres, hr, hrt] at h
              | ArrayType _ => simp [visitFuncDecl, hdoc, htag, hp, hpt, hres, hr, hrt] at h
              | MapType _ _ => simp [visitFuncDecl, hdoc, htag, hp, hpt, hres, hr, hrt] at h
              | SelectorExpr _ _ => simp [visitFuncDecl, hdoc, htag, hp, hpt, hres, hr, hrt] at h
              | StructType _ => simp [visitFuncDecl, hdoc, htag, hp, hpt, hres, hr, hrt] at h
        | StarExpr _ => simp [visitFuncDecl, hdoc, htag, hp, hpt] at h
        | ArrayType _ => simp [visitFuncDecl, hdoc, htag, hp, hpt] at h
        | MapType _ _ => simp [visitFuncDecl, hdoc, htag, hp, hpt] at h
        | SelectorExpr _ _ => simp [visitFuncDecl, hdoc, htag, hp, hpt] at h
        | StructType _ => simp [visitFuncDecl, hdoc, htag, hp, hpt] at h
    · simp only [visitFuncDecl, hdoc, htag, Bool.false_eq_true, if_false, Except.ok.injEq] at h
      subst h
      simp [isAnnotated, hdoc, htag]

theorem visitDecl_ok (d : ast.Decl) (s s1 : Schema) (h : visitDecl s d = .ok s1) :
    ∃ added, s1.actions = s.actions ++ added ∧
      List.Forall₂ Records ((declFuncs [d]).filter isAnnotated) added := by
  cases d with
  | GenDecl specs =>
    refine ⟨[], ?_, ?_⟩
    · simpa using visitTypeSpecs_actions specs s s1 h
    · simp [declFuncs]
  | FuncDecl x =>
    simp only [visitDecl] at h
    cases h0 : visitFuncDecl x s with
    | error e => rw [h0] at h; cases h
    | ok s0 =>
      rw [h0] at h
      have hb := visitTypeSpecs_actions x.Body s0 s1 h
      have hv := visitFuncDecl_ok x s s0 h0
      cases ha : isAnnotated x with
      | true =>
        obtain ⟨a, hrec, hact⟩ := hv.2.1 ha
        refine ⟨[a], by rw [hb, hact], ?_⟩
        simp [declFuncs, ha, hrec]
      | false =>
        refine ⟨[], by rw [hb, hv.2.2 ha]; simp, ?_⟩
        simp [declFuncs, ha]

theorem declFuncs_cons (d : ast.Decl) (rest : List ast.Decl) :
    declFuncs (d :: rest) = declFuncs [d] ++ declFuncs rest := by
  cases d <;> simp [declFuncs]

theorem inspectFile_ok (decls : List ast.Decl) (s s1 : Schema)
    (h : decls.foldlM visitDecl s = .ok s1) :
    ∃ added, s1.actions = s.actions ++ added ∧
      List.Forall₂ Records ((declFuncs decls).filter isAnnotated) added := by
  induction decls generalizing s with
  | nil =>
    rw [foldlM_nil_ok] at h
    exact ⟨[], by simp [h], by simp [declFuncs]⟩
  | cons d rest ih =>
    rw [foldlM_cons_ok] at h
    obtain ⟨s0, h0, hrest⟩ := h
    obtain ⟨add0, e0, r0⟩ := visitDecl_ok d s s0 h0
    obtain ⟨add1, e1, r1⟩ := ih s0 hrest
    refine ⟨add0 ++ add1, by rw [e1, e0, List.append_assoc], ?_⟩
    rw [declFuncs_cons, List.filter_append]
    exact List.rel_append r0 r1

theorem extract_ok (files : List ast.File) (s s1 : Schema)
    (h : files.foldlM inspectFile s = .ok s1) :
    ∃ added, s1.actions = s.actions ++ added ∧
      List.Forall₂ Records ((funcDecls files).filter isAnnotated) added := by
  induction files generalizing s with
  | nil =>
    rw [foldlM_nil_ok] at h
    exact ⟨[], by simp [h], by simp [funcDecls]⟩
  | cons file rest ih =>
    rw [foldlM_cons_ok] at h
    obtain ⟨s0, h0, hrest⟩ := h
    obtain ⟨add0, e0, r0⟩ := inspectFile_ok file.Decls s s0 h0
    obtain ⟨add1, e1, r1⟩ := ih s0 hrest
    refine ⟨add0 ++ add1, by rw [e1, e0, List.append_assoc], ?_⟩
    simp only [funcDecls, List.filter_append]
    exact List.rel_append r0 r1

theorem visitFuncDecl_records (x : ast.FuncDecl) (a : Action) (s : Schema)
    (h : isAnnotated x = true) (r : Records x a) :
    visitFuncDecl x s = .ok { s with actions := s.actions ++ [a] } := by
  obtain ⟨hn, ⟨p, ps, hp, hpt⟩, ⟨results, r0, rs, hres, hr, hrt⟩⟩ := r
  cases hdoc : x.Doc with
  | none => simp [isAnnotated, hdoc] at h
  | some doc =>
    have htag : hasActionTag doc = true := by simpa [isAnnotated, hdoc] using h
    cases a with
    | mk name req res =>
      simp only at hn hpt hrt
      simp [visitFuncDecl, hdoc, htag, hp, hpt, hres, hr, hrt, hn]

/-- C10: the extracted list of actions has exactly one `Action` for every
function declaration that passes the test `x.Doc != nil && hasActionTag(x.Doc)`,
in the order of the visit, each built from its own declaration; nothing is
merged and no name is compared with another.  The router text is the template
around one arm per entry and the client text ends with one binding per entry,
both in the order of the list.  No declaration is rejected for its name: the
visit of a marked declaration whose first parameter and first result have
identifiers as types succeeds from every schema, whatever its actions are. -/
theorem extract_actions (lower : Char → Char) (files : List ast.File) (s : Schema)
    (h : extract files = .ok s) :
    List.Forall₂ Records ((funcDecls files).filter isAnnotated) s.actions ∧
    s.actions.length = ((funcDecls files).filter isAnnotated).length ∧
    (s.actions.map goCase).length = s.actions.length ∧
    (s.actions.map tsBinding).length = s.actions.length ∧
    (∃ head tail : String, generateGoRouter s.actions =
      head ++ (strings.Join (s.actions.map goCase) "" ++ tail)) ∧
    (∀ m : GoMap StructDef, ∃ blocks : String,
      generateTS lower s.actions m = blocks ++ strings.Join (s.actions.map tsBinding) "") ∧
    ∀ (x : ast.FuncDecl) (a : Action) (s0 : Schema), isAnnotated x = true → Records x a →
      visitFuncDecl x s0 = .ok { s0 with actions := s0.actions ++ [a] } := by
  obtain ⟨added, e, r⟩ := extract_ok files _ s h
  have hs : s.actions = added := by simpa using e
  rw [hs]
  refine ⟨r, r.length_eq.symm, by simp, by simp, ?_, ?_,
    fun x a s0 hx hr => visitFuncDecl_records x a s0 hx hr⟩
  · obtain ⟨head, tail, ht⟩ := sprintf_tpl_split
    exact ⟨head, tail, by rw [generateGoRouter_eq, ht]⟩
  · intro m
    exact ⟨_, generateTS_eq lower added m⟩

/-- C10 at the file with two marked declarations named `GetUser`: extraction
returns, and the list has two entries named `GetUser`, one per declaration. -/
theorem extract_actions_witness :
    extract [twoGetUsers] =
      .ok { actions := [{ Name := "GetUser", Req := "GetUserRequest", Res := "GetUserResponse" },
                        { Name := "GetUser", Req := "AdminRequest", Res := "AdminResponse" }],
            structs := GoMap.empty } ∧
    List.Forall₂ Records ((funcDecls [twoGetUsers]).filter isAnnotated)
      [{ Name := "GetUser", Req := "GetUserRequest", Res := "GetUserResponse" },
       { Name := "GetUser", Req := "AdminRequest", Res := "AdminResponse" }] :=
  ⟨rfl, (extract_actions Char.toLower [twoGetUsers] _ rfl).1⟩

/-! ## Signatures and names that the extraction does not check -/

/-- C8, as the code has it: a marked function declaration records an `Action`
as soon as it has a first parameter and a first result whose types are
identifiers, however many parameters it declares; the visit fails, with a
run-time panic, exactly in the other cases: no parameter, a first parameter
whose type is no identifier, no result list, an empty result list, a first
result whose type is no identifier. -/
theorem visitFuncDecl_signature (x : ast.FuncDecl) (s : Schema) (doc : ast.CommentGroup)
    (hdoc : x.Doc = some doc) (htag : hasActionTag doc = true) :
    (∀ (p r : ast.Field) (ps rs : List ast.Field) (results : ast.FieldList)
        (req res : String),
        x.Type_.Params.List = p :: ps → p.Type_ = .Ident req →
        x.Type_.Results = some results → results.List = r :: rs → r.Type_ = .Ident res →
        visitFuncDecl x s =
          .ok { s with actions := s.actions ++ [{ Name := x.Name, Req := req, Res := res }] }) ∧
    (x.Type_.Params.List = [] → visitFuncDecl x s = .error .indexOutOfRange) ∧
    (∀ (p : ast.Field) (ps : List ast.Field),
        x.Type_.Params.List = p :: ps → (∀ n : String, p.Type_ ≠ .Ident n) →
        visitFuncDecl x s = .error .typeAssertion) ∧
    (∀ (p : ast.Field) (ps : List ast.Field) (req : String),
        x.Type_.Params.List = p :: ps → p.Type_ = .Ident req → x.Type_.Results = none →
        visitFuncDecl x s = .error .nilDereference) ∧
    (∀ (p : ast.Field) (ps : List ast.Field) (req : String) (results : ast.FieldList),
        x.Type_.Params.List = p :: ps → p.Type_ = .Ident req →
        x.Type_.Results = some results → results.List = [] →
        visitFuncDecl x s = .error .indexOutOfRange) ∧
    (∀ (p r : ast.Field) (ps rs : List ast.Field) (req : String) (results : ast.FieldList),
        x.Type_.Params.List = p :: ps → p.Type_ = .Ident req →
        x.Type_.Results = some results → results.List = r :: rs →
        (∀ n : String, r.Type_ ≠ .Ident n) →
        visitFuncDecl x s = .error .typeAssertion) := by
  refine ⟨?_, ?_, ?_, ?_, ?_, ?_⟩
  · intro p r ps rs results req res hp hpt hres hr hrt
    simp [visitFuncDecl, hdoc, htag, hp, hpt, hres, hr, hrt]
  · intro hp
    simp [visitFuncDecl, hdoc, htag, hp]
  · intro p ps hp hpt
    cases hc : p.Type_ with
    | Ident n => exact absurd hc (hpt n)
    | StarExpr _ => simp [visitFuncDecl, hdoc, htag, hp, hc]
    | ArrayType _ => simp [visitFuncDecl, hdoc, htag, hp, hc]
    | MapType _ _ => simp [visitFuncDecl, hdoc, htag, hp, hc]
    | SelectorExpr _ _ => simp [visitFuncDecl, hdoc, htag, hp, hc]
    | StructType _ => simp [visitFuncDecl, hdoc, htag, hp, hc]
  · intro p ps req hp hpt hres
    simp [visitFuncDecl, hdoc, htag, hp, hpt, hres]
  · intro p ps req results hp hpt hres hr
    simp [visitFuncDecl, hdoc, htag, hp, hpt, hres, hr]
  · intro p r ps rs req results hp hpt hres hr hrt
    cases hc : r.Type_ with
    | Ident n => exact absurd hc (hrt n)
    | StarExpr _ => simp [visitFuncDecl, hdoc, htag, hp, hpt, hres, hr, hc]
    | ArrayType _ => simp [visitFuncDecl, hdoc, htag, hp, hpt, hres, hr, hc]
    | MapType _ _ => simp [visitFuncDecl, hdoc, htag, hp, hpt, hres, hr, hc]
    | SelectorExpr _ _ => simp [visitFuncDecl, hdoc, htag, hp, hpt, hres, hr, hc]
    | StructType _ => simp [visitFuncDecl, hdoc, htag, hp, hpt, hres, hr, hc]

/-- C8 at the declaration `Transfer` with its two parameters: the visit
records the action of the first parameter. -/
theorem visitFuncDecl_signature_witness :
    visitFuncDecl transferDecl { actions := [], structs := GoMap.empty } =
      .ok { actions := [transfer],
            structs := GoMap.empty } :=
  (visitFuncDecl_signature transferDecl { actions := [], structs := GoMap.empty }
      { List := [{ Text := "// @action" }] } rfl (by decide)).1
    (.mk ["from"] (.Ident "Account")) (.mk [] (.Ident "Receipt"))
    [.mk ["to"] (.Ident "Account")] [.mk [] (.Ident "error")]
    (.mk [.mk [] (.Ident "Receipt"), .mk [] (.Ident "error")])
    "Account" "Receipt" rfl rfl rfl rfl rfl

set_option maxRecDepth 100000 in
/-- C8 fails as stated at a source whose only declaration is `Transfer`, marked
and declared with two parameters: extraction returns a schema with the action
`Transfer`, and both texts are rendered with it. -/
theorem two_parameters_accepted :
    extract [{ Decls := [.FuncDecl transferDecl] }] =
      .ok { actions := [transfer],
            structs := GoMap.empty } ∧
    strings.Contains
      (generateGoRouter [transfer])
      "case \"Transfer\":" = true ∧
    strings.Contains
      (generateTS Char.toLower [transfer]
        GoMap.empty)
      "export const Transfer = async (args: Account)" = true := by
  refine ⟨rfl, by decide, by decide⟩

theorem forall₂_append_left {α β : Type} {R : α → β → Prop} {l1 l2 : List α} {l : List β}
    (h : List.Forall₂ R (l1 ++ l2) l) :
    ∃ m1 m2, l = m1 ++ m2 ∧ List.Forall₂ R l1 m1 ∧ List.Forall₂ R l2 m2 := by
  induction l1 generalizing l with
  | nil => exact ⟨[], l, rfl, List.Forall₂.nil, h⟩
  | cons a rest ih =>
    rw [List.cons_append, List.forall₂_cons_left_iff] at h
    obtain ⟨b, u, hab, hrest, rfl⟩ := h
    obtain ⟨m1, m2, rfl, h1, h2⟩ := ih hrest
    exact ⟨b :: m1, m2, rfl, List.Forall₂.cons hab h1, h2⟩

theorem join_two_of_list {α : Type} (f : α → String) (l1 l2 l3 : List α) (a1 a2 : α) :
    strings.Join ((l1 ++ a1 :: (l2 ++ a2 :: l3)).map f) "" =
      strings.Join (l1.map f) "" ++ (f a1 ++ (strings.Join (l2.map f) "" ++
        (f a2 ++ strings.Join (l3.map f) ""))) := by
  simp only [List.map_append, List.map_cons, join_append, join_cons]

/-- C9, as the code has it: in a source in which two marked function
declarations share the same name and on which extraction returns, both
declarations are recorded: the list of actions has two entries with that
name, at the places of the two declarations, and the router text and the
client text are rendered with both.  No visit fails because of a name: the
visit of a marked declaration whose first parameter and first result have
identifiers as types succeeds from every schema, whatever names its actions
already have. -/
theorem duplicate_names_kept (lower : Char → Char) (files : List ast.File) (s : Schema)
    (x1 x2 : ast.FuncDecl) (l1 l2 l3 : List ast.FuncDecl)
    (h : extract files = .ok s)
    (hl : (funcDecls files).filter isAnnotated = l1 ++ x1 :: (l2 ++ x2 :: l3))
    (hn : x1.Name = x2.Name) :
    (∃ (acts1 acts2 acts3 : List Action) (a1 a2 : Action),
      s.actions = acts1 ++ a1 :: (acts2 ++ a2 :: acts3) ∧
      acts1.length = l1.length ∧ acts2.length = l2.length ∧
      Records x1 a1 ∧ Records x2 a2 ∧ a1.Name = a2.Name ∧
      (∃ pre mid post : String,
        generateGoRouter s.actions = pre ++ (goCase a1 ++ (mid ++ (goCase a2 ++ post)))) ∧
      ∀ m : GoMap StructDef, ∃ pre mid post : String,
        generateTS lower s.actions m =
          pre ++ (tsBinding a1 ++ (mid ++ (tsBinding a2 ++ post)))) ∧
    ∀ (x : ast.FuncDecl) (a : Action) (s0 : Schema), isAnnotated x = true → Records x a →
      visitFuncDecl x s0 = .ok { s0 with actions := s0.actions ++ [a] } := by
  refine ⟨?_, fun x a s0 hx hr => visitFuncDecl_records x a s0 hx hr⟩
  obtain ⟨added, e, r⟩ := extract_ok files _ s h
  have hs : s.actions = added := by simpa using e
  rw [hl] at r
  obtain ⟨acts1, tail1, rfl, r1, rt1⟩ := forall₂_append_left r
  rw [List.forall₂_cons_left_iff] at rt1
  obtain ⟨a1, tail2, hr1, rt2, rfl⟩ := rt1
  obtain ⟨acts2, tail3, rfl, r2, rt3⟩ := forall₂_append_left rt2
  rw [List.forall₂_cons_left_iff] at rt3
  obtain ⟨a2, acts3, hr2, _, rfl⟩ := rt3
  refine ⟨acts1, acts2, acts3, a1, a2, hs, r1.length_eq.symm, r2.length_eq.symm, hr1, hr2,
    by rw [hr1.1, hr2.1, hn], ?_, ?_⟩
  · obtain ⟨head, tail, ht⟩ := sprintf_tpl_split
    refine ⟨head ++ strings.Join (acts1.map goCase) "", strings.Join (acts2.map goCase) "",
      strings.Join (acts3.map goCase) "" ++ tail, ?_⟩
    rw [generateGoRouter_eq, ht, hs, join_two_of_list]
    simp only [String.append_assoc]
  · intro m
    refine ⟨strings.Join (m.entries.map (fun e => writeStruct lower "" e.2)) "" ++
      strings.Join (acts1.map tsBinding) "", strings.Join (acts2.map tsBinding) "",
      strings.Join (acts3.map tsBinding) "", ?_⟩
    rw [generateTS_eq, hs, join_two_of_list]
    simp only [String.append_assoc]

/-- C9 at the file with the two marked declarations named `GetUser`. -/
theorem duplicate_names_kept_witness :
    extract [twoGetUsers] = .ok { actions := [getUser, getUserAgain], structs := GoMap.empty } ∧
    (funcDecls [twoGetUsers]).filter isAnnotated =
      [] ++ getUserDecl :: ([] ++ getUserAgainDecl :: []) ∧
    getUserDecl.Name = getUserAgainDecl.Name ∧
    ∃ (acts1 acts2 acts3 : List Action) (a1 a2 : Action),
      [getUser, getUserAgain] = acts1 ++ a1 :: (acts2 ++ a2 :: acts3) ∧
      acts1.length = 0 ∧ acts2.length = 0 ∧
      Records getUserDecl a1 ∧ Records getUserAgainDecl a2 ∧ a1.Name = a2.Name := by
  obtain ⟨acts1, acts2, acts3, a1, a2, e, n1, n2, r1, r2, hn, _⟩ :=
    (duplicate_names_kept Char.toLower [twoGetUsers]
      { actions := [getUser, getUserAgain], structs := GoMap.empty }
      getUserDecl getUserAgainDecl [] [] [] rfl rfl rfl).1
  exact ⟨rfl, rfl, rfl, acts1, acts2, acts3, a1, a2, e, n1, n2, r1, r2, hn⟩

set_option maxRecDepth 100000 in
/-- C9 fails as stated at the file with two marked declarations named
`GetUser`: extraction returns a list of actions with two entries of that name,
and the router rendered from it has an arm for each. -/
theorem duplicate_not_rejected :
    extract [twoGetUsers] =
      .ok { actions := [getUser, getUserAgain],
            structs := GoMap.empty } ∧
    ¬ ([getUser, getUserAgain].map Action.Name).Nodup ∧
    strings.Contains
      (generateGoRouter [getUser, getUserAgain])
      "case \"GetUser\":\n\t\tvar req actions.GetUserRequest" = true ∧
    strings.Contains
      (generateGoRouter [getUser, getUserAgain])
      "case \"GetUser\":\n\t\tvar req actions.AdminRequest" = true := by
  refine ⟨rfl, by decide, by decide, by decide⟩

/-! ## The order of iteration of the maps -/

theorem sameStruct_refl (e : String × StructDef) : SameStruct e e :=
  ⟨rfl, rfl, List.Perm.refl _⟩

theorem sameStruct_symm {e e1 : String × StructDef} (h : SameStruct e e1) : SameStruct e1 e :=
  ⟨h.1.symm, h.2.1.symm, h.2.2.symm⟩

theorem sameStruct_trans {e e1 e2 : String × StructDef} (h : SameStruct e e1)
    (h1 : SameStruct e1 e2) : SameStruct e e2 :=
  ⟨h1.1.trans h.1, h1.2.1.trans h.2.1, h1.2.2.trans h.2.2⟩

theorem forall₂_sameStruct_symm {l l1 : List (String × StructDef)}
    (h : List.Forall₂ SameStruct l l1) : List.Forall₂ SameStruct l1 l := by
  induction h with
  | nil => exact List.Forall₂.nil
  | cons hab _ ih => exact List.Forall₂.cons (sameStruct_symm hab) ih

theorem forall₂_sameStruct_trans {l l1 l2 : List (String × StructDef)}
    (h : List.Forall₂ SameStruct l l1) (h1 : List.Forall₂ SameStruct l1 l2) :
    List.Forall₂ SameStruct l l2 := by
  induction h generalizing l2 with
  | nil => cases h1; exact List.Forall₂.nil
  | cons hab _ ih =>
    cases h1 with
    | cons hbc hrest => exact List.Forall₂.cons (sameStruct_trans hab hbc) (ih hrest)

theorem reordered_refl (m : GoMap StructDef) : Reordered m m :=
  ⟨m.entries, List.Perm.refl _, List.forall₂_same.mpr (fun e _ => sameStruct_refl e)⟩

theorem reordered_symm {m m1 : GoMap StructDef} (h : Reordered m m1) : Reordered m1 m := by
  obtain ⟨mid, hp, hf⟩ := h
  obtain ⟨w, hw, hwp⟩ := List.perm_comp_forall₂ hp.symm hf
  exact ⟨w, hwp, forall₂_sameStruct_symm hw⟩

theorem reordered_trans {m m1 m2 : GoMap StructDef} (h : Reordered m m1)
    (h1 : Reordered m1 m2) : Reordered m m2 := by
  obtain ⟨mid, hp, hf⟩ := h
  obtain ⟨mid1, hp1, hf1⟩ := h1
  obtain ⟨w, hw, hwp⟩ := List.perm_comp_forall₂ hp1 (forall₂_sameStruct_symm hf)
  exact ⟨w, hwp.trans hp, forall₂_sameStruct_trans (forall₂_sameStruct_symm hw) hf1⟩

/-- The block of a struct, with the lines of its fields. -/
theorem writeStruct_block (lower : Char → Char) (d : StructDef) :
    writeStruct lower "" d =
      "export interface " ++ (d.Name ++ (" \x7b\n" ++
        (strings.Join (d.Fields.entries.map (tsField lower)) "" ++ "\x7d\n\n"))) := by
  rw [writeStruct_eq, String.empty_append]

theorem perm_eq_of_length_le_one {α : Type} {l l1 : List α} (h : l1.Perm l)
    (hl : l.length ≤ 1) : l1 = l := by
  match l, hl, h with
  | [], _, h => exact List.perm_nil.mp h
  | [a], _, h => exact List.perm_singleton.mp h

theorem reordered_of_small {m m1 : GoMap StructDef} (h : Reordered m m1)
    (hlen : m.entries.length ≤ 1) (hf : ∀ e ∈ m.entries, e.2.Fields.entries.length ≤ 1) :
    m1 = m := by
  obtain ⟨mid, hp, hrel⟩ := h
  have hmid := perm_eq_of_length_le_one hp hlen
  subst hmid
  have key : ∀ l l1 : List (String × StructDef), List.Forall₂ SameStruct l l1 →
      (∀ e ∈ l, e.2.Fields.entries.length ≤ 1) → l1 = l := by
    intro l l1 hrel
    induction hrel with
    | nil => intro _; rfl
    | @cons e e1 l l1 hab _ ih =>
      intro hl
      have h4 : e1.2.Fields.entries = e.2.Fields.entries :=
        perm_eq_of_length_le_one hab.2.2 (hl e (List.mem_cons_self _ _))
      have h1 := hab.1
      have h2 := hab.2.1
      obtain ⟨k1, ⟨n1, ⟨f1⟩⟩⟩ := e1
      obtain ⟨k, ⟨n, ⟨f⟩⟩⟩ := e
      simp only at h1 h2 h4
      rw [h1, h2, h4, ih (fun e he => hl e (List.mem_cons_of_mem _ he))]
  cases m with
  | mk entries =>
  cases m1 with
  | mk entries1 =>
  simp only at hrel hf
  rw [key entries entries1 hrel hf]

theorem reordered_test : Reordered testStructs testStructsOtherOrder :=
  ⟨[("GetUserResponse", { Name := "GetUserResponse",
                          Fields := ⟨[("Name", "string"), ("Email", "string")]⟩ }),
    ("GetUserRequest", { Name := "GetUserRequest", Fields := ⟨[("ID", "number")]⟩ })],
    List.Perm.swap _ _ _,
    List.Forall₂.cons ⟨rfl, rfl, List.Perm.swap _ _ _⟩
      (List.Forall₂.cons ⟨rfl, rfl, List.Perm.refl _⟩ List.Forall₂.nil)⟩

theorem records_unique {x : ast.FuncDecl} {a b : Action} (ha : Records x a)
    (hb : Records x b) : a = b := by
  obtain ⟨n1, ⟨p1, ps1, hp1, ht1⟩, ⟨r1, f1, fs1, hr1, hl1, hrt1⟩⟩ := ha
  obtain ⟨n2, ⟨p2, ps2, hp2, ht2⟩, ⟨r2, f2, fs2, hr2, hl2, hrt2⟩⟩ := hb
  rw [hp1] at hp2
  injection hp2 with e1 _
  subst e1
  rw [ht1] at ht2
  injection ht2 with ereq
  rw [hr1] at hr2
  injection hr2 with e2
  subst e2
  rw [hl1] at hl2
  injection hl2 with e3 _
  subst e3
  rw [hrt1] at hrt2
  injection hrt2 with eres
  cases a
  cases b
  simp only at n1 n2 ereq eres
  simp only [Action.mk.injEq]
  exact ⟨n1.trans n2.symm, ereq, eres⟩

theorem funcDecls_eq_flatMap (files : List ast.File) :
    funcDecls files = files.flatMap (fun file => declFuncs file.Decls) := by
  induction files with
  | nil => rfl
  | cons file rest ih => simp only [funcDecls, ih, List.flatMap_cons]

/-- The lists of actions of two runs that visit the same files in two orders
are the same up to order. -/
theorem extract_actions_perm (files1 files2 : List ast.File) (s1 s2 : Schema)
    (hp : files1.Perm files2) (h1 : extract files1 = .ok s1) (h2 : extract files2 = .ok s2) :
    s1.actions.Perm s2.actions := by
  obtain ⟨added1, e1, r1⟩ := extract_ok files1 _ s1 h1
  obtain ⟨added2, e2, r2⟩ := extract_ok files2 _ s2 h2
  have hs1 : s1.actions = added1 := by simpa using e1
  have hs2 : s2.actions = added2 := by simpa using e2
  have hf : ((funcDecls files1).filter isAnnotated).Perm ((funcDecls files2).filter isAnnotated) := by
    rw [funcDecls_eq_flatMap, funcDecls_eq_flatMap]
    exact (hp.flatMap_right _).filter _
  have hu : Relator.RightUnique Records := fun _ _ _ ha hb => records_unique ha hb
  rw [hs1, hs2]
  exact List.rel_perm_imp hu r1 r2 hf

/-- C6, as the code has it: the client text is the concatenation of one block
per entry of the struct map, in the order in which the run iterates the map,
each block with one line per entry of the field map, in the order in which the
run iterates it, followed by the bindings of the actions, which no map
iteration touches.  In two runs on the same struct map the entries of the one
are those of the other up to order, entry by entry with the same struct name
and the same pairs of field and type, hence the same field lines, up to order;
the two client texts are equal when the map has at most one struct and no
struct has more than one field.  The list of actions is built in the order in
which the files are visited: in two runs that visit the same files in two
orders the lists of actions, the arms of the router and the bindings are the
same up to order. -/
theorem client_text_up_to_order (lower : Char → Char) (actions : List Action)
    (m m1 m2 : GoMap StructDef) (h1 : Reordered m m1) (h2 : Reordered m m2) :
    generateTS lower actions m1 =
      strings.Join (m1.entries.map (fun e =>
        "export interface " ++ (e.2.Name ++ (" \x7b\n" ++
          (strings.Join (e.2.Fields.entries.map (fun f =>
            "  " ++ (strings.ToLower lower f.1 ++ (": " ++ (f.2 ++ ";\n"))))) "" ++
              "\x7d\n\n"))))) "" ++
        strings.Join (actions.map tsBinding) "" ∧
    generateTS lower actions m2 =
      strings.Join (m2.entries.map (fun e =>
        "export interface " ++ (e.2.Name ++ (" \x7b\n" ++
          (strings.Join (e.2.Fields.entries.map (fun f =>
            "  " ++ (strings.ToLower lower f.1 ++ (": " ++ (f.2 ++ ";\n"))))) "" ++
              "\x7d\n\n"))))) "" ++
        strings.Join (actions.map tsBinding) "" ∧
    (∃ mid : List (String × StructDef), mid.Perm m1.entries ∧
      List.Forall₂ (fun e e2 =>
        e2.1 = e.1 ∧ e2.2.Name = e.2.Name ∧
        e2.2.Fields.entries.Perm e.2.Fields.entries ∧
        (e2.2.Fields.entries.map (fun f =>
          "  " ++ (strings.ToLower lower f.1 ++ (": " ++ (f.2 ++ ";\n"))))).Perm
          (e.2.Fields.entries.map (fun f =>
            "  " ++ (strings.ToLower lower f.1 ++ (": " ++ (f.2 ++ ";\n")))))) mid m2.entries) ∧
    (m.entries.length ≤ 1 → (∀ e ∈ m.entries, e.2.Fields.entries.length ≤ 1) →
      generateTS lower actions m1 = generateTS lower actions m2) ∧
    ∀ (files1 files2 : List ast.File) (s1 s2 : Schema), files1.Perm files2 →
      extract files1 = .ok s1 → extract files2 = .ok s2 →
      s1.actions.Perm s2.actions ∧
      (s1.actions.map goCase).Perm (s2.actions.map goCase) ∧
      (s1.actions.map tsBinding).Perm (s2.actions.map tsBinding) := by
  have hline : tsField lower = (fun f : String × String =>
      "  " ++ (strings.ToLower lower f.1 ++ (": " ++ (f.2 ++ ";\n")))) :=
    funext (fun f => tsField_eq lower f)
  have hblock : ∀ m0 : GoMap StructDef,
      m0.entries.map (fun e => writeStruct lower "" e.2) =
        m0.entries.map (fun e =>
          "export interface " ++ (e.2.Name ++ (" \x7b\n" ++
            (strings.Join (e.2.Fields.entries.map (fun f =>
              "  " ++ (strings.ToLower lower f.1 ++ (": " ++ (f.2 ++ ";\n"))))) "" ++
                "\x7d\n\n")))) := by
    intro m0
    refine List.map_congr_left (fun e _ => ?_)
    rw [writeStruct_block, hline]
  have ht1 := generateTS_eq lower actions m1
  have ht2 := generateTS_eq lower actions m2
  rw [hblock m1] at ht1
  rw [hblock m2] at ht2
  obtain ⟨mid, hp, hf⟩ := reordered_trans (reordered_symm h1) h2
  have hrel : List.Forall₂ (fun e e2 : String × StructDef =>
      e2.1 = e.1 ∧ e2.2.Name = e.2.Name ∧
      e2.2.Fields.entries.Perm e.2.Fields.entries ∧
      (e2.2.Fields.entries.map (fun f =>
        "  " ++ (strings.ToLower lower f.1 ++ (": " ++ (f.2 ++ ";\n"))))).Perm
        (e.2.Fields.entries.map (fun f =>
          "  " ++ (strings.ToLower lower f.1 ++ (": " ++ (f.2 ++ ";\n")))))) mid m2.entries := by
    refine hf.imp ?_
    intro e e2 hs
    exact ⟨hs.1, hs.2.1, hs.2.2, List.Perm.map _ hs.2.2⟩
  have hsmall : m.entries.length ≤ 1 → (∀ e ∈ m.entries, e.2.Fields.entries.length ≤ 1) →
      generateTS lower actions m1 = generateTS lower actions m2 := by
    intro hlen hfields
    rw [reordered_of_small h1 hlen hfields, reordered_of_small h2 hlen hfields]
  refine ⟨ht1, ht2, ⟨mid, hp, hrel⟩, hsmall, ?_⟩
  intro files1 files2 s1 s2 hpf he1 he2
  have hperm := extract_actions_perm files1 files2 s1 s2 hpf he1 he2
  exact ⟨hperm, List.Perm.map goCase hperm, List.Perm.map tsBinding hperm⟩

/-- C6 at the struct map of `test.go` and two orders of iteration, and at two
orders of the files `test.go` and `twoGetUsers`. -/
theorem client_text_up_to_order_witness :
    Reordered testStructs testStructs ∧ Reordered testStructs testStructsOtherOrder ∧
    generateTS Char.toLower [getUser] testStructsOtherOrder =
      strings.Join (testStructsOtherOrder.entries.map (fun e =>
        "export interface " ++ (e.2.Name ++ (" \x7b\n" ++
          (strings.Join (e.2.Fields.entries.map (fun f =>
            "  " ++ (strings.ToLower Char.toLower f.1 ++ (": " ++ (f.2 ++ ";\n"))))) "" ++
              "\x7d\n\n"))))) "" ++
        strings.Join ([getUser].map tsBinding) "" ∧
    [getUser, getUser, getUserAgain].Perm [getUser, getUserAgain, getUser] :=
  ⟨reordered_refl _, reordered_test,
    (client_text_up_to_order Char.toLower [getUser] testStructs testStructs
      testStructsOtherOrder (reordered_refl _) reordered_test).2.1,
    ((client_text_up_to_order Char.toLower [getUser] testStructs testStructs
      testStructsOtherOrder (reordered_refl _) reordered_test).2.2.2.2
        [testFile, twoGetUsers] [twoGetUsers, testFile]
        { actions := [getUser, getUser, getUserAgain], structs := testStructs }
        { actions := [getUser, getUserAgain, getUser], structs := testStructs }
        (List.Perm.swap _ _ _) rfl rfl).1⟩

set_option maxRecDepth 100000 in
/-- C6 fails as stated at the source `test.go`: extraction gives the action
`GetUser` and a struct map with two structs, and two orders of iteration of
that one map give two different client texts. -/
theorem client_text_depends_on_order :
    extract [testFile] = .ok { actions := [getUser], structs := testStructs } ∧
    Reordered testStructs testStructsOtherOrder ∧
    generateTS Char.toLower [getUser] testStructs ≠
      generateTS Char.toLower [getUser] testStructsOtherOrder := by
  refine ⟨rfl, reordered_test, by decide⟩

/-! ## Struct declarations -/

theorem setEntries_absent {V : Type} (k : String) (v : V) (l : List (String × V))
    (h : k ∉ l.map Prod.fst) : GoMap.setEntries k v l = l ++ [(k, v)] := by
  induction l with
  | nil => rfl
  | cons e rest ih =>
    simp only [List.map_cons, List.mem_cons, not_or] at h
    have hne : ¬ e.1 = k := fun c => h.1 c.symm
    simp only [GoMap.setEntries, hne, if_false, ih h.2, List.cons_append]

theorem setEntries_keys {V : Type} (k : String) (v : V) (l : List (String × V)) :
    (GoMap.setEntries k v l).map Prod.fst =
      if k ∈ l.map Prod.fst then l.map Prod.fst else l.map Prod.fst ++ [k] := by
  induction l with
  | nil => simp [GoMap.setEntries]
  | cons e rest ih =>
    by_cases he : e.1 = k
    · simp [GoMap.setEntries, he]
    · have hne : ¬ k = e.1 := fun c => he c.symm
      simp only [GoMap.setEntries, he, if_false, List.map_cons, ih, List.mem_cons, hne,
        false_or]
      split <;> simp

theorem setEntries_mem {V : Type} (k : String) (v : V) (l : List (String × V)) :
    (k, v) ∈ GoMap.setEntries k v l := by
  induction l with
  | nil => simp [GoMap.setEntries]
  | cons e rest ih =>
    by_cases he : e.1 = k
    · simp [GoMap.setEntries, he]
    · simp [GoMap.setEntries, he, ih]

theorem setEntries_mem_cases {V : Type} (k : String) (v : V) (l : List (String × V))
    (e : String × V) (h : e ∈ GoMap.setEntries k v l) : e = (k, v) ∨ e ∈ l := by
  induction l with
  | nil => simpa [GoMap.setEntries] using h
  | cons e0 rest ih =>
    by_cases he : e0.1 = k
    · simp only [GoMap.setEntries, he, if_true, List.mem_cons] at h
      rcases h with h | h
      · exact Or.inl h
      · exact Or.inr (List.mem_cons_of_mem _ h)
    · simp only [GoMap.setEntries, he, if_false, List.mem_cons] at h
      rcases h with h | h
      · exact Or.inr (by rw [h]; exact List.mem_cons_self _ _)
      · rcases ih h with h1 | h1
        · exact Or.inl h1
        · exact Or.inr (List.mem_cons_of_mem _ h1)

theorem setEntries_nodup {V : Type} (k : String) (v : V) (l : List (String × V))
    (h : (l.map Prod.fst).Nodup) : ((GoMap.setEntries k v l).map Prod.fst).Nodup := by
  rw [setEntries_keys]
  split
  · exact h
  · rename_i hk
    exact List.Nodup.append h (List.nodup_singleton k) (by simpa using hk)

theorem wellKeyed_set (m : GoMap StructDef) (d : StructDef) (h : WellKeyed m) :
    WellKeyed (m.set d.Name d) := by
  refine ⟨setEntries_nodup _ _ _ h.1, ?_⟩
  intro e he
  rcases setEntries_mem_cases _ _ _ e he with h1 | h1
  · rw [h1]
  · exact h.2 e h1

theorem fields_fold (name : String) (nts : List (String × String))
    (acc : List (String × String)) (hd : (nts.map Prod.fst).Nodup)
    (ha : ∀ p ∈ nts, p.1 ∉ acc.map Prod.fst) :
    (nts.map (fun p => ast.Field.mk [p.1] (.Ident p.2))).foldlM fieldStep
        { Name := name, Fields := ⟨acc⟩ } =
      .ok { Name := name, Fields := ⟨acc ++ nts.map (fun p => (p.1, MapType p.2))⟩ } := by
  induction nts generalizing acc with
  | nil => simp [pure, Except.pure]
  | cons p rest ih =>
    simp only [List.map_cons, List.nodup_cons] at hd
    have hp : p.1 ∉ acc.map Prod.fst := ha p (List.mem_cons_self _ _)
    have hstep : fieldStep { Name := name, Fields := ⟨acc⟩ } (ast.Field.mk [p.1] (.Ident p.2)) =
        .ok { Name := name, Fields := ⟨acc ++ [(p.1, MapType p.2)]⟩ } := by
      simp [fieldStep, ast.Field.Type_, ast.Field.Names, GoMap.set, setEntries_absent _ _ _ hp]
    rw [List.map_cons, List.foldlM_cons, hstep]
    simp only [bind, Except.bind]
    rw [ih (acc ++ [(p.1, MapType p.2)]) hd.2]
    · simp
    · intro q hq
      simp only [List.map_append, List.map_cons, List.map_nil, List.mem_append,
        List.mem_singleton, not_or]
      refine ⟨ha q (List.mem_cons_of_mem _ hq), ?_⟩
      intro c
      exact hd.1 (by rw [← c]; exact List.mem_map_of_mem Prod.fst hq)

theorem visitTypeSpec_struct (x : ast.TypeSpec) (nts : List (String × String)) (s : Schema)
    (hx : x.Type_ = .StructType (.mk (nts.map (fun p => ast.Field.mk [p.1] (.Ident p.2)))))
    (hd : (nts.map Prod.fst).Nodup) :
    visitTypeSpec x s =
      .ok { s with
            structs := s.structs.set x.Name
              ⟨x.Name, ⟨nts.map (fun p => (p.1, MapType p.2))⟩⟩ } := by
  have hf := fields_fold x.Name nts [] hd (by simp)
  simp only [List.nil_append] at hf
  simp only [visitTypeSpec, hx, ast.FieldList.List, GoMap.empty, hf]

theorem forall₂_sameStruct_names {l l1 : List (String × StructDef)}
    (h : List.Forall₂ SameStruct l l1) :
    l1.map (fun e => e.2.Name) = l.map (fun e => e.2.Name) := by
  induction h with
  | nil => rfl
  | cons hab _ ih => simp only [List.map_cons, hab.2.1, ih]

theorem forall₂_sameStruct_mem {l l1 : List (String × StructDef)}
    (h : List.Forall₂ SameStruct l l1) (e : String × StructDef) (he : e ∈ l) :
    ∃ e1 ∈ l1, SameStruct e e1 := by
  induction h with
  | nil => cases he
  | @cons a b l l1 hab _ ih =>
    rcases List.mem_cons.mp he with h0 | h0
    · exact ⟨b, List.mem_cons_self _ _, by rw [h0]; exact hab⟩
    · obtain ⟨e1, he1, hs⟩ := ih h0
      exact ⟨e1, List.mem_cons_of_mem _ he1, hs⟩

/-! ## The struct maps of an extraction are well keyed -/

theorem fieldStep_name (d d1 : StructDef) (field : ast.Field)
    (h : fieldStep d field = .ok d1) : d1.Name = d.Name := by
  unfold fieldStep at h
  split at h
  · split at h
    · cases h; rfl
    · cases h
  · cases h

theorem fields_name (fields : List ast.Field) (d d1 : StructDef)
    (h : fields.foldlM fieldStep d = .ok d1) : d1.Name = d.Name := by
  induction fields generalizing d with
  | nil => rw [foldlM_nil_ok] at h; rw [h]
  | cons f rest ih =>
    rw [foldlM_cons_ok] at h
    obtain ⟨d0, h0, hrest⟩ := h
    rw [ih d0 hrest, fieldStep_name d d0 f h0]

theorem visitTypeSpec_wellKeyed (x : ast.TypeSpec) (s s1 : Schema)
    (h : visitTypeSpec x s = .ok s1) (hs : WellKeyed s.structs) : WellKeyed s1.structs := by
  unfold visitTypeSpec at h
  split at h
  · split at h
    · rename_i st _ d hd
      cases h
      have hn : d.Name = x.Name := fields_name _ _ _ hd
      have := wellKeyed_set s.structs d hs
      rw [hn] at this
      exact this
    · cases h
  · cases h; exact hs

theorem visitTypeSpecs_wellKeyed (specs : List ast.TypeSpec) (s s1 : Schema)
    (h : visitTypeSpecs specs s = .ok s1) (hs : WellKeyed s.structs) :
    WellKeyed s1.structs := by
  unfold visitTypeSpecs at h
  induction specs generalizing s with
  | nil => rw [foldlM_nil_ok] at h; rw [← h]; exact hs
  | cons x rest ih =>
    rw [foldlM_cons_ok] at h
    obtain ⟨s0, h0, hrest⟩ := h
    exact ih s0 hrest (visitTypeSpec_wellKeyed x s s0 h0 hs)

theorem visitDecl_wellKeyed (d : ast.Decl) (s s1 : Schema) (h : visitDecl s d = .ok s1)
    (hs : WellKeyed s.structs) : WellKeyed s1.structs := by
  cases d with
  | GenDecl specs => exact visitTypeSpecs_wellKeyed specs s s1 h hs
  | FuncDecl x =>
    simp only [visitDecl] at h
    cases h0 : visitFuncDecl x s with
    | error e => rw [h0] at h; cases h
    | ok s0 =>
      rw [h0] at h
      have hv := (visitFuncDecl_ok x s s0 h0).1
      exact visitTypeSpecs_wellKeyed x.Body s0 s1 h (by rw [hv]; exact hs)

theorem inspectFile_wellKeyed (decls : List ast.Decl) (s s1 : Schema)
    (h : decls.foldlM visitDecl s = .ok s1) (hs : WellKeyed s.structs) :
    WellKeyed s1.structs := by
  induction decls generalizing s with
  | nil => rw [foldlM_nil_ok] at h; rw [← h]; exact hs
  | cons d rest ih =>
    rw [foldlM_cons_ok] at h
    obtain ⟨s0, h0, hrest⟩ := h
    exact ih s0 hrest (visitDecl_wellKeyed d s s0 h0 hs)

/-- Every struct map that extraction returns is well keyed. -/
theorem extract_wellKeyed (files : List ast.File) (s : Schema) (h : extract files = .ok s) :
    WellKeyed s.structs := by
  have key : ∀ (files : List ast.File) (s0 s1 : Schema),
      files.foldlM inspectFile s0 = .ok s1 → WellKeyed s0.structs → WellKeyed s1.structs := by
    intro files
    induction files with
    | nil => intro s0 s1 h hs; rw [foldlM_nil_ok] at h; rw [← h]; exact hs
    | cons file rest ih =>
      intro s0 s1 h hs
      rw [foldlM_cons_ok] at h
      obtain ⟨s2, h2, hrest⟩ := h
      exact ih s2 s1 hrest (inspectFile_wellKeyed file.Decls s0 s2 h2 hs)
  exact key files _ s h ⟨List.nodup_nil, by simp [GoMap.empty]⟩

/-! ## The struct map of an extraction, from the type specs alone -/

theorem setEntries_mem_of_ne {V : Type} (k : String) (v : V) (l : List (String × V))
    (e : String × V) (he : e ∈ l) (hne : e.1 ≠ k) : e ∈ GoMap.setEntries k v l := by
  induction l with
  | nil => cases he
  | cons e0 rest ih =>
    by_cases h0 : e0.1 = k
    · rcases List.mem_cons.mp he with h1 | h1
      · rw [h1] at hne; exact absurd h0 hne
      · simp [GoMap.setEntries, h0, h1]
    · rcases List.mem_cons.mp he with h1 | h1
      · simp [GoMap.setEntries, h0, h1]
      · simp [GoMap.setEntries, h0, ih h1]

theorem foldlM_append_ok {σ α ε : Type} (f : σ → α → Except ε σ) (l l1 : List α)
    (s s1 : σ) :
    (l ++ l1).foldlM f s = .ok s1 ↔ ∃ s0, l.foldlM f s = .ok s0 ∧ l1.foldlM f s0 = .ok s1 := by
  induction l generalizing s with
  | nil => simp [pure, Except.pure]
  | cons a rest ih =>
    rw [List.cons_append, foldlM_cons_ok]
    constructor
    · rintro ⟨s2, h2, h3⟩
      obtain ⟨s0, h4, h5⟩ := (ih s2).mp h3
      exact ⟨s0, (foldlM_cons_ok f a rest s s0).mpr ⟨s2, h2, h4⟩, h5⟩
    · rintro ⟨s0, h4, h5⟩
      obtain ⟨s2, h2, h3⟩ := (foldlM_cons_ok f a rest s s0).mp h4
      exact ⟨s2, h2, (ih s2).mpr ⟨s0, h3, h5⟩⟩

theorem visitTypeSpecs_append (l l1 : List ast.TypeSpec) (s s1 : Schema) :
    visitTypeSpecs (l ++ l1) s = .ok s1 ↔
      ∃ s0, visitTypeSpecs l s = .ok s0 ∧ visitTypeSpecs l1 s0 = .ok s1 :=
  foldlM_append_ok _ l l1 s s1

theorem visitTypeSpecs_cons (x : ast.TypeSpec) (l : List ast.TypeSpec) (s s1 : Schema) :
    visitTypeSpecs (x :: l) s = .ok s1 ↔
      ∃ s0, visitTypeSpec x s = .ok s0 ∧ visitTypeSpecs l s0 = .ok s1 :=
  foldlM_cons_ok _ x l s s1

theorem visitTypeSpec_structs (x : ast.TypeSpec) (s s1 : Schema) (acts : List Action)
    (h : visitTypeSpec x s = .ok s1) :
    visitTypeSpec x { actions := acts, structs := s.structs } =
      .ok { actions := acts, structs := s1.structs } := by
  unfold visitTypeSpec at h ⊢
  split at h
  · rename_i st hst
    simp only [hst]
    split at h
    · rename_i d hd
      cases h
      simp only [hd]
    · cases h
  · cases h
    rfl

theorem visitTypeSpecs_structs (specs : List ast.TypeSpec) (s s1 : Schema)
    (acts : List Action) (h : visitTypeSpecs specs s = .ok s1) :
    visitTypeSpecs specs { actions := acts, structs := s.structs } =
      .ok { actions := acts, structs := s1.structs } := by
  induction specs generalizing s with
  | nil =>
    unfold visitTypeSpecs at h ⊢
    rw [foldlM_nil_ok] at h
    rw [foldlM_nil_ok, h]
  | cons x rest ih =>
    rw [visitTypeSpecs_cons] at h ⊢
    obtain ⟨s0, h0, hrest⟩ := h
    exact ⟨_, visitTypeSpec_structs x s s0 acts h0, ih s0 hrest⟩

theorem declSpecs_cons (d : ast.Decl) (rest : List ast.Decl) :
    declSpecs (d :: rest) = declSpecs [d] ++ declSpecs rest := by
  cases d <;> simp [declSpecs]

theorem visitDecl_structs (d : ast.Decl) (s s1 : Schema) (h : visitDecl s d = .ok s1) :
    visitTypeSpecs (declSpecs [d]) { actions := [], structs := s.structs } =
      .ok { actions := [], structs := s1.structs } := by
  cases d with
  | GenDecl specs =>
    simp only [declSpecs, List.append_nil]
    exact visitTypeSpecs_structs specs s s1 [] h
  | FuncDecl x =>
    simp only [visitDecl] at h
    simp only [declSpecs, List.append_nil]
    cases h0 : visitFuncDecl x s with
    | error e => rw [h0] at h; cases h
    | ok s0 =>
      rw [h0] at h
      have hv := (visitFuncDecl_ok x s s0 h0).1
      rw [← hv]
      exact visitTypeSpecs_structs x.Body s0 s1 [] h

theorem inspectFile_structs (decls : List ast.Decl) (s s1 : Schema)
    (h : decls.foldlM visitDecl s = .ok s1) :
    visitTypeSpecs (declSpecs decls) { actions := [], structs := s.structs } =
      .ok { actions := [], structs := s1.structs } := by
  induction decls generalizing s with
  | nil =>
    rw [foldlM_nil_ok] at h
    rw [h]
    rfl
  | cons d rest ih =>
    rw [foldlM_cons_ok] at h
    obtain ⟨s0, h0, hrest⟩ := h
    rw [declSpecs_cons, visitTypeSpecs_append]
    exact ⟨_, visitDecl_structs d s s0 h0, ih s0 hrest⟩

theorem extract_structs (files : List ast.File) (s : Schema) (h : extract files = .ok s) :
    visitTypeSpecs (typeSpecs files) { actions := [], structs := GoMap.empty } =
      .ok { actions := [], structs := s.structs } := by
  have key : ∀ (files : List ast.File) (s0 s1 : Schema),
      files.foldlM inspectFile s0 = .ok s1 →
      visitTypeSpecs (typeSpecs files) { actions := [], structs := s0.structs } =
        .ok { actions := [], structs := s1.structs } := by
    intro files
    induction files with
    | nil =>
      intro s0 s1 h
      rw [foldlM_nil_ok] at h
      rw [h]
      rfl
    | cons file rest ih =>
      intro s0 s1 h
      rw [foldlM_cons_ok] at h
      obtain ⟨s2, h2, hrest⟩ := h
      simp only [typeSpecs]
      rw [visitTypeSpecs_append]
      exact ⟨_, inspectFile_structs file.Decls s0 s2 h2, ih s2 s1 hrest⟩
  exact key files _ s h

theorem visitTypeSpec_keeps (y : ast.TypeSpec) (s s1 : Schema) (e : String × StructDef)
    (h : visitTypeSpec y s = .ok s1) (hne : y.Name ≠ e.1) (he : e ∈ s.structs.entries) :
    e ∈ s1.structs.entries := by
  unfold visitTypeSpec at h
  split at h
  · split at h
    · cases h
      exact setEntries_mem_of_ne _ _ _ e he (fun c => hne c.symm)
    · cases h
  · cases h; exact he

theorem visitTypeSpecs_keeps (specs : List ast.TypeSpec) (s s1 : Schema)
    (e : String × StructDef) (h : visitTypeSpecs specs s = .ok s1)
    (hne : ∀ y ∈ specs, y.Name ≠ e.1) (he : e ∈ s.structs.entries) :
    e ∈ s1.structs.entries := by
  induction specs generalizing s with
  | nil =>
    unfold visitTypeSpecs at h
    rw [foldlM_nil_ok] at h
    rw [← h]; exact he
  | cons y rest ih =>
    rw [visitTypeSpecs_cons] at h
    obtain ⟨s0, h0, hrest⟩ := h
    exact ih s0 hrest (fun z hz => hne z (List.mem_cons_of_mem _ hz))
      (visitTypeSpec_keeps y s s0 e h0 (hne y (List.mem_cons_self _ _)) he)

/-- C5, as the code has it: take a source on which extraction returns and a
struct declaration of it that is the last of its name to be visited, each of
whose fields declares one name and has an identifier as its type, the names
being pairwise distinct.  Then the struct map holds, under the name of the
struct, one entry (name, `MapType` of the declared type) per field, and in
every order of iteration `generateTS` writes exactly one struct of that name,
as one interface block whose lines are, up to order, one line per source field
made of the lower-cased name and the mapped type. -/
theorem struct_interface (lower : Char → Char) (files : List ast.File) (s : Schema)
    (x : ast.TypeSpec) (before after : List ast.TypeSpec) (nts : List (String × String))
    (h : extract files = .ok s) (hsplit : typeSpecs files = before ++ x :: after)
    (hlast : ∀ y ∈ after, y.Name ≠ x.Name)
    (hx : x.Type_ = .StructType (.mk (nts.map (fun p => ast.Field.mk [p.1] (.Ident p.2)))))
    (hd : (nts.map Prod.fst).Nodup) :
    (x.Name, (⟨x.Name, ⟨nts.map (fun p => (p.1, MapType p.2))⟩⟩ : StructDef)) ∈
      s.structs.entries ∧
    ∀ m1 : GoMap StructDef, Reordered s.structs m1 →
      (m1.entries.map (fun e => e.2.Name)).count x.Name = 1 ∧
      ∃ (pre post : String) (lines : List String),
        lines.Perm (nts.map (fun p =>
          "  " ++ (strings.ToLower lower p.1 ++ (": " ++ (MapType p.2 ++ ";\n"))))) ∧
        generateTS lower s.actions m1 =
          pre ++ ("export interface " ++ (x.Name ++ (" \x7b\n" ++
            (strings.Join lines "" ++ ("\x7d\n\n" ++ post))))) := by
  have hwk : WellKeyed s.structs := extract_wellKeyed files s h
  have hmem : (x.Name, (⟨x.Name, ⟨nts.map (fun p => (p.1, MapType p.2))⟩⟩ : StructDef)) ∈
      s.structs.entries := by
    have hs := extract_structs files s h
    rw [hsplit, visitTypeSpecs_append] at hs
    obtain ⟨sa, _, hrest⟩ := hs
    rw [visitTypeSpecs_cons] at hrest
    obtain ⟨sb, hb, hafter⟩ := hrest
    rw [visitTypeSpec_struct x nts sa hx hd] at hb
    cases hb
    have hk := visitTypeSpecs_keeps after _ _ _ hafter hlast (setEntries_mem _ _ _)
    exact hk
  refine ⟨hmem, ?_⟩
  intro m1 hr
  obtain ⟨mid, hp, hf⟩ := hr
  constructor
  · rw [forall₂_sameStruct_names hf,
      (List.Perm.map (fun e : String × StructDef => e.2.Name) hp).count_eq,
      List.map_congr_left (fun e he => hwk.2 e he)]
    exact List.count_eq_one_of_mem hwk.1 (List.mem_map_of_mem Prod.fst hmem)
  · obtain ⟨e1, he1, hs1⟩ := forall₂_sameStruct_mem hf _ (hp.mem_iff.mpr hmem)
    obtain ⟨pre, post, hj⟩ :=
      join_map_mem (fun e : String × StructDef => writeStruct lower "" e.2) m1.entries e1 he1
    refine ⟨pre, post ++ strings.Join (s.actions.map tsBinding) "",
      e1.2.Fields.entries.map (tsField lower), ?_, ?_⟩
    · have h3 := List.Perm.map (tsField lower) hs1.2.2
      simpa only [List.map_map, Function.comp_def, tsField_eq] using h3
    · have h2 : e1.2.Name = x.Name := hs1.2.1
      rw [generateTS_eq, hj, writeStruct_block, h2]
      simp only [String.append_assoc]

/-- C5 at the source `test.go` and its declaration
`GetUserResponse{Name string; Email string}`. -/
theorem struct_interface_witness :
    extract [testFile] = .ok { actions := [getUser], structs := testStructs } ∧
    typeSpecs [testFile] = [getUserRequestSpec] ++ getUserResponseSpec :: [] ∧
    ∀ m1 : GoMap StructDef, Reordered testStructs m1 →
      (m1.entries.map (fun e => e.2.Name)).count "GetUserResponse" = 1 ∧
      ∃ (pre post : String) (lines : List String),
        lines.Perm ["  name: string;\n", "  email: string;\n"] ∧
        generateTS Char.toLower [getUser] m1 =
          pre ++ ("export interface " ++ ("GetUserResponse" ++ (" \x7b\n" ++
            (strings.Join lines "" ++ ("\x7d\n\n" ++ post))))) :=
  ⟨rfl, rfl,
    (struct_interface Char.toLower [testFile]
      { actions := [getUser], structs := testStructs } getUserResponseSpec
      [getUserRequestSpec] [] [("Name", "string"), ("Email", "string")]
      rfl rfl (by simp) rfl (by decide)).2⟩

set_option maxRecDepth 100000 in
/-- C5 fails as stated.  At `GetUserResponse{Name string; Email string}` the
rendered declaration has the entries `name` and `email`, and the text holds no
entry `Name`; at `type Pair struct { A, B int }` extraction stores the field
`A` alone and the rendered declaration has no entry for `B`. -/
theorem interface_entries_differ :
    extract [{ Decls := [.GenDecl [getUserResponseSpec]] }] =
      .ok { actions := [], structs := responseStructs } ∧
    generateTS Char.toLower [] responseStructs =
      "export interface GetUserResponse \x7b\n  name: string;\n  email: string;\n\x7d\n\n" ∧
    strings.Contains (generateTS Char.toLower [] responseStructs) "Name: string" = false ∧
    extract [{ Decls := [.GenDecl [pairSpec]] }] =
      .ok { actions := [], structs := pairStructs } ∧
    generateTS Char.toLower [] pairStructs =
      "export interface Pair \x7b\n  a: number;\n\x7d\n\n" := by
  refine ⟨rfl, by decide, by decide, rfl, by decide⟩


/-! ## The shape of the two texts -/

set_option maxRecDepth 100000 in
/-- C11: the router text is the template with, in the place of the switch
body, one arm per action in the order of the list; the arm of an action has the
name of the action as its case label, decodes into `actions.<Req>` and calls
`actions.<Name>`.  For the empty list the switch has no arm, and for the list
`[getUser]` it has the one arm of the key `GetUser`, which decodes into
`actions.GetUserRequest` and calls `actions.GetUser`. -/
theorem router_arms (actions : List Action) :
    generateGoRouter actions =
      "package main\nimport (\n\t\"encoding/json\"\n\t\"net/http\"\n\t\"yourproject/internal/actions\"\n)\n\ntype RPCRequest struct \x7b\n\tFn   string          `json:\"fn\"`\n\tArgs json.RawMessage `json:\"args\"`\n\x7d\n\nfunc ActionHandler(w http.ResponseWriter, r *http.Request) \x7b\n\tvar body RPCRequest\n\tjson.NewDecoder(r.Body).Decode(&body)\n\n\tvar result interface\x7b\x7d\n\tvar err error\n\n\tswitch body.Fn \x7b" ++
        (strings.Join (actions.map (fun a =>
            "\n\tcase \"" ++ (a.Name ++ ("\":\n\t\tvar req actions." ++ (a.Req ++
              ("\n\t\tjson.Unmarshal(body.Args, &req)\n\t\tres, err := actions." ++ (a.Name ++
                "(req)\n\t\treturn res, err"))))))) "" ++
          "\n\t\x7d\n\n\tif err != nil \x7b\n\t\thttp.Error(w, err.Error(), 500)\n\t\treturn\n\t\x7d\n\tjson.NewEncoder(w).Encode(result)\n\x7d") ∧
    (actions.map goCase).length = actions.length ∧
    strings.Join (([] : List Action).map goCase) "" = "" ∧
    strings.Join ([getUser].map goCase) "" =
      "\n\tcase \"GetUser\":\n\t\tvar req actions.GetUserRequest\n\t\tjson.Unmarshal(body.Args, &req)\n\t\tres, err := actions.GetUser(req)\n\t\treturn res, err" := by
  refine ⟨?_, by simp, rfl, by decide⟩
  rw [generateGoRouter_eq, sprintf_tpl]
  have hmap : actions.map goCase = actions.map (fun a =>
      "\n\tcase \"" ++ (a.Name ++ ("\":\n\t\tvar req actions." ++ (a.Req ++
        ("\n\t\tjson.Unmarshal(body.Args, &req)\n\t\tres, err := actions." ++ (a.Name ++
          "(req)\n\t\treturn res, err")))))) :=
    List.map_congr_left (fun a _ => goCase_eq a)
  rw [hmap]

set_option maxRecDepth 100000 in
/-- C13: the client text is one `export interface` block per entry of the
struct map, in the order of the iteration, followed by one `export const`
binding per action, in the order of the list; the binding of an action has the
name of the action, posts to `/api/actions` and sends the envelope with `fn`
set to the name of the action and `args`.  With no action and no struct the
text is empty. -/
theorem client_text_shape (lower : Char → Char) (actions : List Action)
    (structs : GoMap StructDef) :
    generateTS lower actions structs =
      strings.Join (structs.entries.map (fun e =>
        "export interface " ++ (e.2.Name ++ (" \x7b\n" ++
          (strings.Join (e.2.Fields.entries.map (tsField lower)) "" ++ "\x7d\n\n"))))) "" ++
      strings.Join (actions.map (fun a =>
        "export const " ++ (a.Name ++ (" = async (args: " ++ (a.Req ++ ("): Promise<" ++ (a.Res ++
          ("> => \x7b\n  const res = await fetch(\"/api/actions\", \x7b\n    method: \"POST\",\n    headers: \x7b \"Content-Type\": \"application/json\" \x7d,\n    body: JSON.stringify(\x7b fn: \"" ++
            (a.Name ++ "\", args \x7d),\n  \x7d);\n  if (!res.ok) throw new Error(await res.text());\n  return res.json();\n\x7d;\n\n"))))))))) "" ∧
    (structs.entries.map (fun e => writeStruct lower "" e.2)).length = structs.entries.length ∧
    (actions.map tsBinding).length = actions.length ∧
    generateTS lower [] GoMap.empty = "" := by
  refine ⟨?_, by simp, by simp, rfl⟩
  rw [generateTS_eq]
  have hb : actions.map tsBinding = actions.map (fun a =>
      "export const " ++ (a.Name ++ (" = async (args: " ++ (a.Req ++ ("): Promise<" ++ (a.Res ++
        ("> => \x7b\n  const res = await fetch(\"/api/actions\", \x7b\n    method: \"POST\",\n    headers: \x7b \"Content-Type\": \"application/json\" \x7d,\n    body: JSON.stringify(\x7b fn: \"" ++
          (a.Name ++ "\", args \x7d),\n  \x7d);\n  if (!res.ok) throw new Error(await res.text());\n  return res.json();\n\x7d;\n\n")))))))) :=
    List.map_congr_left (fun a _ => tsBinding_eq a)
  have hs : structs.entries.map (fun e => writeStruct lower "" e.2) =
      structs.entries.map (fun e =>
        "export interface " ++ (e.2.Name ++ (" \x7b\n" ++
          (strings.Join (e.2.Fields.entries.map (tsField lower)) "" ++ "\x7d\n\n")))) :=
    List.map_congr_left (fun e _ => writeStruct_block lower e.2)
  rw [hb, hs]

set_option maxRecDepth 100000 in
/-- C16: the client text starts with one block per entry of the struct map,
and for a struct definition `d` the loop of `generateTS` adds to the builder
the line `export interface <d.Name> {`, then for each entry of
`d.Fields` one line with the lower-cased name and the stored type as it is,
then the closing line and an empty line.  The stored type is written without
another call of `MapType`: a stored `int` is rendered as `int`.
`GetUserRequest` with the field `ID` of stored type `number` gives the line
`  id: number;`. -/
theorem interface_block (lower : Char → Char) (sb : String) (d : StructDef)
    (actions : List Action) (structs : GoMap StructDef) :
    generateTS lower actions structs =
      strings.Join (structs.entries.map (fun e => writeStruct lower "" e.2)) "" ++
        strings.Join (actions.map tsBinding) "" ∧
    writeStruct lower sb d =
      sb ++ ("export interface " ++ (d.Name ++ (" \x7b\n" ++
        (strings.Join (d.Fields.entries.map (fun e =>
          "  " ++ (strings.ToLower lower e.1 ++ (": " ++ (e.2 ++ ";\n"))))) "" ++
            "\x7d\n\n")))) ∧
    writeStruct Char.toLower "" getUserRequestDef =
      "export interface GetUserRequest \x7b\n  id: number;\n\x7d\n\n" ∧
    tsField Char.toLower ("ID", "number") = "  id: number;\n" ∧
    tsField Char.toLower ("Count", "int") = "  count: int;\n" := by
  refine ⟨generateTS_eq lower actions structs, ?_, by decide, by decide, by decide⟩
  rw [writeStruct_eq]
  have hl : d.Fields.entries.map (tsField lower) = d.Fields.entries.map (fun e =>
      "  " ++ (strings.ToLower lower e.1 ++ (": " ++ (e.2 ++ ";\n")))) :=
    List.map_congr_left (fun e _ => tsField_eq lower e)
  rw [hl]

/-! ## The stored field types -/

theorem mapType_cases (s : String) :
    MapType s ∈ ["number", "boolean", "string", "Error"] ∨
    (s ∉ ["int", "int32", "int64", "float32", "float64", "bool", "string", "error"] ∧
      MapType s = s) := by
  by_cases h : s ∈ ["int", "int32", "int64", "float32", "float64", "bool", "string", "error"]
  · left
    simp only [List.mem_cons, List.mem_singleton, List.not_mem_nil, or_false] at h
    rcases h with rfl | rfl | rfl | rfl | rfl | rfl | rfl | rfl <;> decide
  · exact Or.inr ⟨h, mapType_of_not_key s h⟩

theorem mapType_idem (s : String) : MapType (MapType s) = MapType s := by
  rcases mapType_cases s with h | ⟨_, h⟩
  · simp only [List.mem_cons, List.mem_singleton, List.not_mem_nil, or_false] at h
    rcases h with h | h | h | h <;> rw [h] <;> decide
  · rw [h, h]

theorem mapType_not_scalar (s : String) :
    MapType s ∉ ["int", "int32", "int64", "float32", "float64", "bool", "error"] := by
  rcases mapType_cases s with h | ⟨hk, h⟩
  · simp only [List.mem_cons, List.mem_singleton, List.not_mem_nil, or_false] at h
    rcases h with h | h | h | h <;> rw [h] <;> decide
  · rw [h]
    intro hc
    apply hk
    simp only [List.mem_cons, List.mem_singleton, List.not_mem_nil, or_false] at hc ⊢
    tauto

theorem fieldStep_mapped (d d1 : StructDef) (field : ast.Field)
    (h : fieldStep d field = .ok d1)
    (hd : ∀ f ∈ d.Fields.entries, ∃ t : String, f.2 = MapType t) :
    ∀ f ∈ d1.Fields.entries, ∃ t : String, f.2 = MapType t := by
  unfold fieldStep at h
  split at h
  · rename_i fieldType _
    split at h
    · cases h
      intro f hf
      rcases setEntries_mem_cases _ _ _ f hf with h1 | h1
      · exact ⟨fieldType, by rw [h1]⟩
      · exact hd f h1
    · cases h
  · cases h

theorem fields_mapped (fields : List ast.Field) (d d1 : StructDef)
    (h : fields.foldlM fieldStep d = .ok d1)
    (hd : ∀ f ∈ d.Fields.entries, ∃ t : String, f.2 = MapType t) :
    ∀ f ∈ d1.Fields.entries, ∃ t : String, f.2 = MapType t := by
  induction fields generalizing d with
  | nil => rw [foldlM_nil_ok] at h; rw [← h]; exact hd
  | cons f rest ih =>
    rw [foldlM_cons_ok] at h
    obtain ⟨d0, h0, hrest⟩ := h
    exact ih d0 hrest (fieldStep_mapped d d0 f h0 hd)

theorem visitTypeSpec_mapped (x : ast.TypeSpec) (s s1 : Schema)
    (h : visitTypeSpec x s = .ok s1) (hs : MappedFields s.structs) :
    MappedFields s1.structs := by
  unfold visitTypeSpec at h
  split at h
  · split at h
    · rename_i st _ d hd
      cases h
      intro e he
      rcases setEntries_mem_cases _ _ _ e he with h1 | h1
      · rw [h1]
        exact fields_mapped _ _ _ hd (by simp [GoMap.empty])
      · exact hs e h1
    · cases h
  · cases h; exact hs

theorem visitTypeSpecs_mapped (specs : List ast.TypeSpec) (s s1 : Schema)
    (h : visitTypeSpecs specs s = .ok s1) (hs : MappedFields s.structs) :
    MappedFields s1.structs := by
  induction specs generalizing s with
  | nil =>
    unfold visitTypeSpecs at h
    rw [foldlM_nil_ok] at h
    rw [← h]; exact hs
  | cons x rest ih =>
    rw [visitTypeSpecs_cons] at h
    obtain ⟨s0, h0, hrest⟩ := h
    exact ih s0 hrest (visitTypeSpec_mapped x s s0 h0 hs)

theorem extract_mapped (files : List ast.File) (s : Schema) (h : extract files = .ok s) :
    MappedFields s.structs := by
  have hm := visitTypeSpecs_mapped (typeSpecs files) _ _ (extract_structs files s h)
    (by intro e he; simp [GoMap.empty] at he)
  exact hm

/-- C17: `MapType` is idempotent, and in every struct map that extraction
returns each stored field type is a fixed point of `MapType` and is none of
`int`, `int32`, `int64`, `float32`, `float64`, `bool`, `error`. -/
theorem MapType_idempotent :
    (∀ s : String, MapType (MapType s) = MapType s) ∧
    ∀ (files : List ast.File) (sch : Schema), extract files = .ok sch →
      ∀ e ∈ sch.structs.entries, ∀ f ∈ e.2.Fields.entries,
        MapType f.2 = f.2 ∧
        f.2 ∉ ["int", "int32", "int64", "float32", "float64", "bool", "error"] := by
  refine ⟨mapType_idem, ?_⟩
  intro files sch h e he f hf
  obtain ⟨t, ht⟩ := extract_mapped files sch h e he f hf
  rw [ht]
  exact ⟨mapType_idem t, mapType_not_scalar t⟩

/-- C17 at the source `test.go`: the stored type `number` of the field `ID`
of `GetUserRequest`. -/
theorem MapType_idempotent_witness :
    extract [testFile] = .ok { actions := [getUser], structs := testStructs } ∧
    MapType "number" = "number" ∧
    "number" ∉ ["int", "int32", "int64", "float32", "float64", "bool", "error"] :=
  ⟨rfl,
    MapType_idempotent.2 [testFile] { actions := [getUser], structs := testStructs } rfl
      ("GetUserRequest", { Name := "GetUserRequest", Fields := ⟨[("ID", "number")]⟩ })
      (by simp [testStructs]) ("ID", "number") (by simp)⟩

/-! ## Extraction on the supported shape -/

theorem fieldStep_supported (field : ast.Field) (h : supportedField field = true)
    (d : StructDef) : ∃ d1, fieldStep d field = .ok d1 := by
  cases field with
  | mk names type =>
    cases type with
    | Ident t =>
      cases names with
      | nil => simp [supportedField, ast.Field.Names] at h
      | cons n rest =>
        exact ⟨{ d with Fields := d.Fields.set n (MapType t) },
          by simp [fieldStep, ast.Field.Type_, ast.Field.Names]⟩
    | StarExpr _ => simp [supportedField, isIdent, ast.Field.Type_] at h
    | ArrayType _ => simp [supportedField, isIdent, ast.Field.Type_] at h
    | MapType _ _ => simp [supportedField, isIdent, ast.Field.Type_] at h
    | SelectorExpr _ _ => simp [supportedField, isIdent, ast.Field.Type_] at h
    | StructType _ => simp [supportedField, isIdent, ast.Field.Type_] at h

theorem fields_supported (fields : List ast.Field)
    (h : ∀ f ∈ fields, supportedField f = true) (d : StructDef) :
    ∃ d1, fields.foldlM fieldStep d = .ok d1 := by
  induction fields generalizing d with
  | nil => exact ⟨d, (foldlM_nil_ok _ _ _).mpr rfl⟩
  | cons f rest ih =>
    obtain ⟨d0, h0⟩ := fieldStep_supported f (h f (List.mem_cons_self _ _)) d
    obtain ⟨d1, h1⟩ := ih (fun g hg => h g (List.mem_cons_of_mem _ hg)) d0
    exact ⟨d1, (foldlM_cons_ok _ _ _ _ _).mpr ⟨d0, h0, h1⟩⟩

theorem visitTypeSpec_supported (x : ast.TypeSpec) (h : supportedSpec x = true) (s : Schema) :
    ∃ s1, visitTypeSpec x s = .ok s1 := by
  unfold supportedSpec at h
  unfold visitTypeSpec
  split at h
  · rename_i st hst
    rw [List.all_eq_true] at h
    obtain ⟨d1, h1⟩ := fields_supported st.List h { Name := x.Name, Fields := GoMap.empty }
    simp only [hst, h1]
    exact ⟨_, rfl⟩
  · exact ⟨_, rfl⟩

theorem visitTypeSpecs_supported (specs : List ast.TypeSpec)
    (h : ∀ x ∈ specs, supportedSpec x = true) (s : Schema) :
    ∃ s1, visitTypeSpecs specs s = .ok s1 := by
  induction specs generalizing s with
  | nil => exact ⟨s, (foldlM_nil_ok _ _ _).mpr rfl⟩
  | cons x rest ih =>
    obtain ⟨s0, h0⟩ := visitTypeSpec_supported x (h x (List.mem_cons_self _ _)) s
    obtain ⟨s1, h1⟩ := ih (fun y hy => h y (List.mem_cons_of_mem _ hy)) s0
    exact ⟨s1, (visitTypeSpecs_cons _ _ _ _).mpr ⟨s0, h0, h1⟩⟩

theorem firstIsIdent_iff (l : List ast.Field) (h : firstIsIdent l = true) :
    ∃ (p : ast.Field) (ps : List ast.Field) (t : String), l = p :: ps ∧ p.Type_ = .Ident t := by
  cases l with
  | nil => simp [firstIsIdent] at h
  | cons p ps =>
    cases hp : p.Type_ with
    | Ident t => exact ⟨p, ps, t, rfl, hp⟩
    | StarExpr _ => simp [firstIsIdent, isIdent, hp] at h
    | ArrayType _ => simp [firstIsIdent, isIdent, hp] at h
    | MapType _ _ => simp [firstIsIdent, isIdent, hp] at h
    | SelectorExpr _ _ => simp [firstIsIdent, isIdent, hp] at h
    | StructType _ => simp [firstIsIdent, isIdent, hp] at h

theorem visitFuncDecl_supported (x : ast.FuncDecl) (h : supportedFunc x = true) (s : Schema) :
    ∃ s1, visitFuncDecl x s = .ok s1 := by
  cases ha : isAnnotated x with
  | false =>
    cases hdoc : x.Doc with
    | none => exact ⟨s, by simp [visitFuncDecl, hdoc]⟩
    | some doc =>
      have htag : hasActionTag doc = false := by simpa [isAnnotated, hdoc] using ha
      exact ⟨s, by simp [visitFuncDecl, hdoc, htag]⟩
  | true =>
    simp only [supportedFunc, ha, Bool.not_true, Bool.false_or, Bool.and_eq_true] at h
    obtain ⟨hp, hr⟩ := h
    obtain ⟨p, ps, req, hpl, hpt⟩ := firstIsIdent_iff _ hp
    cases hres : x.Type_.Results with
    | none => simp [hres] at hr
    | some results =>
      simp only [hres] at hr
      obtain ⟨r, rs, res, hrl, hrt⟩ := firstIsIdent_iff _ hr
      exact ⟨_, visitFuncDecl_records x { Name := x.Name, Req := req, Res := res } s ha
        ⟨rfl, ⟨p, ps, hpl, hpt⟩, ⟨results, r, rs, hres, hrl, hrt⟩⟩⟩

theorem visitDecl_supported (d : ast.Decl)
    (hs : ∀ x ∈ declSpecs [d], supportedSpec x = true)
    (hf : ∀ x ∈ declFuncs [d], supportedFunc x = true) (s : Schema) :
    ∃ s1, visitDecl s d = .ok s1 := by
  cases d with
  | GenDecl specs =>
    exact visitTypeSpecs_supported specs (fun x hx => hs x (by simpa [declSpecs] using hx)) s
  | FuncDecl x =>
    obtain ⟨s0, h0⟩ := visitFuncDecl_supported x (hf x (by simp [declFuncs])) s
    obtain ⟨s1, h1⟩ :=
      visitTypeSpecs_supported x.Body (fun y hy => hs y (by simpa [declSpecs] using hy)) s0
    exact ⟨s1, by simp only [visitDecl, h0, h1]⟩

theorem inspectFile_supported (decls : List ast.Decl)
    (hs : ∀ x ∈ declSpecs decls, supportedSpec x = true)
    (hf : ∀ x ∈ declFuncs decls, supportedFunc x = true) (s : Schema) :
    ∃ s1, decls.foldlM visitDecl s = .ok s1 := by
  induction decls generalizing s with
  | nil => exact ⟨s, (foldlM_nil_ok _ _ _).mpr rfl⟩
  | cons d rest ih =>
    rw [declSpecs_cons] at hs
    rw [declFuncs_cons] at hf
    obtain ⟨s0, h0⟩ := visitDecl_supported d
      (fun x hx => hs x (List.mem_append_left _ hx))
      (fun x hx => hf x (List.mem_append_left _ hx)) s
    obtain ⟨s1, h1⟩ := ih
      (fun x hx => hs x (List.mem_append_right _ hx))
      (fun x hx => hf x (List.mem_append_right _ hx)) s0
    exact ⟨s1, (foldlM_cons_ok _ _ _ _ _).mpr ⟨s0, h0, h1⟩⟩

theorem files_supported (files : List ast.File)
    (hs : ∀ x ∈ typeSpecs files, supportedSpec x = true)
    (hf : ∀ x ∈ funcDecls files, supportedFunc x = true) (s : Schema) :
    ∃ s1, files.foldlM inspectFile s = .ok s1 := by
  induction files generalizing s with
  | nil => exact ⟨s, (foldlM_nil_ok _ _ _).mpr rfl⟩
  | cons file rest ih =>
    simp only [typeSpecs] at hs
    simp only [funcDecls] at hf
    obtain ⟨s0, h0⟩ := inspectFile_supported file.Decls
      (fun x hx => hs x (List.mem_append_left _ hx))
      (fun x hx => hf x (List.mem_append_left _ hx)) s
    obtain ⟨s1, h1⟩ := ih
      (fun x hx => hs x (List.mem_append_right _ hx))
      (fun x hx => hf x (List.mem_append_right _ hx)) s0
    exact ⟨s1, (foldlM_cons_ok _ _ _ _ _).mpr ⟨s0, h0, h1⟩⟩

/-- C18: on a source in which every field of every struct type spec has at
least one name and an identifier as its type, and every marked function
declaration has a first parameter and a first result whose types are
identifiers, no assertion and no index access of the extraction panics:
extraction returns a schema. -/
theorem extract_total (files : List ast.File) (h : supported files = true) :
    ∃ s : Schema, extract files = .ok s := by
  simp only [supported, Bool.and_eq_true, List.all_eq_true] at h
  exact files_supported files h.1 h.2 _

/-- C18 at the source `test.go`. -/
theorem extract_total_witness :
    supported [testFile] = true ∧ ∃ s : Schema, extract [testFile] = .ok s :=
  ⟨by decide, extract_total [testFile] (by decide)⟩

/-! ## The types of a binding -/

set_option maxRecDepth 100000 in
/-- C12 on the code: for the marked declaration
`func Count(req CountRequest) (int, error)` extraction records the action with
the response type `int`, `MapType` maps `int` to `number`, and the binding
that `generateTS` writes returns `Promise<int>`: the type names of an action
are written as extracted, without a call of `MapType`.  Likewise an action
whose request type is `int` gets the argument type `int`. -/
theorem binding_types_as_extracted :
    extract [{ Decls := [.FuncDecl countDecl] }] =
      .ok { actions := [count], structs := GoMap.empty } ∧
    MapType count.Res = "number" ∧
    generateTS Char.toLower [count] GoMap.empty =
      "export const Count = async (args: CountRequest): Promise<int> => \x7b\n  const res = await fetch(\"/api/actions\", \x7b\n    method: \"POST\",\n    headers: \x7b \"Content-Type\": \"application/json\" \x7d,\n    body: JSON.stringify(\x7b fn: \"Count\", args \x7d),\n  \x7d);\n  if (!res.ok) throw new Error(await res.text());\n  return res.json();\n\x7d;\n\n" ∧
    strings.Contains (generateTS Char.toLower [count] GoMap.empty) "Promise<number>" = false ∧
    strings.Contains (tsBinding { Name := "Total", Req := "int", Res := "int" })
      "(args: int): Promise<int>" = true ∧
    strings.Contains (tsBinding { Name := "Total", Req := "int", Res := "int" })
      "number" = false := by
  refine ⟨rfl, by decide, by decide, by decide, by decide, by decide⟩

/-! ## Type names that no declaration resolves -/

/-- C14, as the code has it: no type name is ever looked up among the
structs, and generation reports no unresolved reference.  On every source of
the supported shape, whatever its type names are, extraction returns a schema,
and from it `generateTS` renders the block of every struct and the binding of
every action and `generateGoRouter` renders the arm of every action; a field
type that is no key of the table is stored as it is written. -/
theorem unresolved_names_rendered (lower : Char → Char) (files : List ast.File)
    (h : supported files = true) :
    (∃ s : Schema, extract files = .ok s ∧
      (∀ a ∈ s.actions,
        (∃ pre post : String,
          generateTS lower s.actions s.structs = pre ++ (tsBinding a ++ post)) ∧
        ∃ pre post : String, generateGoRouter s.actions = pre ++ (goCase a ++ post)) ∧
      ∀ e ∈ s.structs.entries, ∃ pre post : String,
        generateTS lower s.actions s.structs = pre ++ (writeStruct lower "" e.2 ++ post)) ∧
    ∀ t : String,
      t ∉ ["int", "int32", "int64", "float32", "float64", "bool", "string", "error"] →
        MapType t = t := by
  refine ⟨?_, mapType_of_not_key⟩
  simp only [supported, Bool.and_eq_true, List.all_eq_true] at h
  obtain ⟨s, hs⟩ := files_supported files h.1 h.2 { actions := [], structs := GoMap.empty }
  refine ⟨s, hs, ?_, ?_⟩
  · intro a ha
    constructor
    · obtain ⟨pre, post, e⟩ := join_map_mem tsBinding s.actions a ha
      refine ⟨strings.Join (s.structs.entries.map (fun e => writeStruct lower "" e.2)) "" ++
        pre, post, ?_⟩
      rw [generateTS_eq, e, String.append_assoc]
    · obtain ⟨pre, post, e⟩ := join_map_mem goCase s.actions a ha
      obtain ⟨head, tail, ht⟩ := sprintf_tpl_split
      rw [generateGoRouter_eq, ht, e]
      exact ⟨head ++ pre, post ++ tail, by simp only [String.append_assoc]⟩
  · intro e he
    obtain ⟨pre, post, hj⟩ :=
      join_map_mem (fun e : String × StructDef => writeStruct lower "" e.2) s.structs.entries
        e he
    refine ⟨pre, post ++ strings.Join (s.actions.map tsBinding) "", ?_⟩
    rw [generateTS_eq, hj]
    simp only [String.append_assoc]

/-- C14 at the source `unresolvedFile`, which is of the supported shape. -/
theorem unresolved_names_rendered_witness :
    supported [unresolvedFile] = true ∧
    ∃ s : Schema, extract [unresolvedFile] = .ok s ∧
      ∀ a ∈ s.actions,
        (∃ pre post : String,
          generateTS Char.toLower s.actions s.structs = pre ++ (tsBinding a ++ post)) ∧
        ∃ pre post : String, generateGoRouter s.actions = pre ++ (goCase a ++ post) := by
  obtain ⟨s, hs, ha, _⟩ :=
    (unresolved_names_rendered Char.toLower [unresolvedFile] (by decide)).1
  exact ⟨by decide, s, hs, ha⟩

set_option maxRecDepth 100000 in
/-- C14 fails as stated at the source `unresolvedFile`: `MissingRequest`,
`MissingResponse` and `Product` are neither keys of the table nor names of
structs of the schema, yet extraction returns the schema and both texts are
rendered with these names. -/
theorem unresolved_reference_accepted :
    extract [unresolvedFile] = .ok { actions := [lookup], structs := orderStructs } ∧
    (∀ t ∈ ["MissingRequest", "MissingResponse", "Product"],
      BasicTypeMap.lookup t = none ∧ t ∉ orderStructs.keys) ∧
    generateTS Char.toLower [lookup] orderStructs =
      "export interface Order \x7b\n  item: Product;\n\x7d\n\nexport const Lookup = async (args: MissingRequest): Promise<MissingResponse> => \x7b\n  const res = await fetch(\"/api/actions\", \x7b\n    method: \"POST\",\n    headers: \x7b \"Content-Type\": \"application/json\" \x7d,\n    body: JSON.stringify(\x7b fn: \"Lookup\", args \x7d),\n  \x7d);\n  if (!res.ok) throw new Error(await res.text());\n  return res.json();\n\x7d;\n\n" ∧
    strings.Contains (generateGoRouter [lookup])
      "case \"Lookup\":\n\t\tvar req actions.MissingRequest" = true := by
  refine ⟨rfl, by decide, by decide, by decide⟩

/-! ## A payload that does not decode -/

set_option maxRecDepth 100000 in
/-- C15, as the code has it: in the text of every arm the call
`json.Unmarshal(body.Args, &req)` is a statement of its own, whose error is
bound to no variable, and the next statement is the call of the
implementation, `res, err := actions.<Name>(req)`.  The format of an arm has
no `if` and no `http.Error`, so the arm holds no test of the decoding and no
outcome for a payload that does not decode; the only test of the template is
`err != nil` after the switch.  The arm of an action of the list stands in the
router text as it is. -/
theorem decode_error_unchecked (a : Action) :
    goCase a =
      "\n\tcase \"" ++ (a.Name ++ ("\":\n\t\tvar req actions." ++ (a.Req ++
        ("\n\t\tjson.Unmarshal(body.Args, &req)\n\t\tres, err := actions." ++ (a.Name ++
          "(req)\n\t\treturn res, err"))))) ∧
    strings.Contains caseFormat "if" = false ∧
    strings.Contains caseFormat "http.Error" = false ∧
    strings.Contains caseFormat
      "\n\t\tjson.Unmarshal(body.Args, &req)\n\t\tres, err := actions.%s(req)\n" = true ∧
    strings.Contains tpl "json.Unmarshal" = false ∧
    ∀ actions : List Action, a ∈ actions →
      ∃ pre post : String, generateGoRouter actions =
        pre ++ ("\n\t\tjson.Unmarshal(body.Args, &req)\n\t\tres, err := actions." ++ (a.Name ++
          ("(req)\n\t\treturn res, err" ++ post))) := by
  refine ⟨goCase_eq a, by decide, by decide, by decide, by decide, ?_⟩
  intro actions ha
  obtain ⟨pre, post, e⟩ := join_map_mem goCase actions a ha
  obtain ⟨head, tail, ht⟩ := sprintf_tpl_split
  refine ⟨head ++ (pre ++ ("\n\tcase \"" ++ (a.Name ++ ("\":\n\t\tvar req actions." ++ a.Req)))),
    post ++ tail, ?_⟩
  rw [generateGoRouter_eq, ht, e, goCase_eq]
  simp only [String.append_assoc]

/-- C15 at the list `[getUser]`. -/
theorem decode_error_unchecked_witness :
    getUser ∈ [getUser] ∧
    ∃ pre post : String, generateGoRouter [getUser] =
      pre ++ ("\n\t\tjson.Unmarshal(body.Args, &req)\n\t\tres, err := actions." ++
        (getUser.Name ++ ("(req)\n\t\treturn res, err" ++ post))) :=
  ⟨by decide, (decode_error_unchecked getUser).2.2.2.2.2 [getUser] (by decide)⟩

set_option maxRecDepth 100000 in
/-- C15 fails as stated at the list `[getUser]`: in the rendered arm the
decoding is followed at once by the call of `actions.GetUser(req)`; the arm
has no `if`, and the router text binds the result of `json.Unmarshal` to
nothing and tests no error before the call. -/
theorem decode_failure_not_tested :
    strings.Join ([getUser].map goCase) "" =
      "\n\tcase \"GetUser\":\n\t\tvar req actions.GetUserRequest\n\t\tjson.Unmarshal(body.Args, &req)\n\t\tres, err := actions.GetUser(req)\n\t\treturn res, err" ∧
    strings.Contains (strings.Join ([getUser].map goCase) "") "if" = false ∧
    strings.Contains (generateGoRouter [getUser])
      "\t\tvar req actions.GetUserRequest\n\t\tjson.Unmarshal(body.Args, &req)\n\t\tres, err := actions.GetUser(req)\n\t\treturn res, err\n\t\x7d" = true ∧
    strings.Contains (generateGoRouter [getUser]) ":= json.Unmarshal" = false ∧
    strings.Contains (generateGoRouter [getUser]) "= json.Unmarshal" = false := by
  refine ⟨by decide, by decide, by decide, by decide, by decide⟩

end Twilight
